import Mathlib

/-!
# Portfolio script: particle field and theme preference

A shallow embedding of `src/script.js`.

Numbers.  JavaScript numbers are modelled by `JSNum`: rationals extended with
`NaN`, `+Infinity` and `-Infinity`.  The sign of zero is not modelled: the only
divisor of `Particle.update` that can be zero is `distance`, the result of
`Math.sqrt`, which is never negative zero.

Arithmetic.  The operators come in two readings.  `JSNum.add`, `JSNum.sub`,
`JSNum.mul`, `JSNum.div` give the exact result on finite values; they serve the
properties that rest on the control flow and on which value is stored, not on
its last bit.  `JSNum.add64`, `JSNum.sub64`, `JSNum.mul64`, `JSNum.div64` round
the exact result to binary64 (`round64`: to nearest, ties to even, gradual
underflow, overflow to an infinity), as the language does; `Particle.new64` and
`Particle.mouseParallax64` are the constructor and the pointer step of `update`
in that reading, and the properties that depend on rounding are stated on them.

Host functions.  `Math.sqrt` belongs to the host, not to the script; its
action on finite non-negative values is a parameter `sqrt : ℚ → ℚ` of the
model, and every theorem states which property of it is used (if any).
`ratSqrt` (exact on squares) and `sqrt64` (the correctly rounded binary64
square root) are concrete instances for the concrete inputs.
`Math.random` is a parameter as well: the draws are arguments.
-/

namespace Portfolio

/-! ## Numbers -/

/-- A JavaScript number: a finite value, `NaN`, `+Infinity` or `-Infinity`. -/
inductive JSNum where
  | nan : JSNum
  | pinf : JSNum
  | ninf : JSNum
  | fin (q : ℚ) : JSNum
  deriving DecidableEq

namespace JSNum

/-- Unary minus. -/
def neg : JSNum → JSNum
  | nan => nan
  | pinf => ninf
  | ninf => pinf
  | fin q => fin (-q)

/-- The operator `+` on numbers. -/
def add : JSNum → JSNum → JSNum
  | nan, _ => nan
  | _, nan => nan
  | pinf, ninf => nan
  | ninf, pinf => nan
  | pinf, _ => pinf
  | ninf, _ => ninf
  | fin _, pinf => pinf
  | fin _, ninf => ninf
  | fin a, fin b => fin (a + b)

/-- The operator `-` on numbers. -/
def sub (a b : JSNum) : JSNum := add a (neg b)

/-- An infinity with the sign of `q` times the sign given by `pos`; `NaN` when `q = 0`. -/
def infTimes (pos : Bool) (q : ℚ) : JSNum :=
  if q = 0 then nan
  else if (0 < q) = pos then pinf else ninf

/-- The operator `*` on numbers. -/
def mul : JSNum → JSNum → JSNum
  | nan, _ => nan
  | _, nan => nan
  | pinf, pinf => pinf
  | pinf, ninf => ninf
  | ninf, pinf => ninf
  | ninf, ninf => pinf
  | pinf, fin q => infTimes true q
  | ninf, fin q => infTimes false q
  | fin q, pinf => infTimes true q
  | fin q, ninf => infTimes false q
  | fin a, fin b => fin (a * b)

/-- The operator `/` on numbers (a zero divisor is positive zero). -/
def div : JSNum → JSNum → JSNum
  | nan, _ => nan
  | _, nan => nan
  | pinf, pinf => nan
  | pinf, ninf => nan
  | ninf, pinf => nan
  | ninf, ninf => nan
  | pinf, fin q => if 0 ≤ q then pinf else ninf
  | ninf, fin q => if 0 ≤ q then ninf else pinf
  | fin _, pinf => fin 0
  | fin _, ninf => fin 0
  | fin a, fin b =>
    if b = 0 then (if a = 0 then nan else if 0 < a then pinf else ninf)
    else fin (a / b)

/-- The operator `<` on numbers: false as soon as one side is `NaN`. -/
def lt : JSNum → JSNum → Bool
  | nan, _ => false
  | _, nan => false
  | pinf, _ => false
  | _, ninf => false
  | ninf, _ => true
  | fin _, pinf => true
  | fin a, fin b => decide (a < b)

/-- The operator `>` on numbers. -/
def gt (a b : JSNum) : Bool := lt b a

/-- The operator `!==` on numbers: `NaN` differs from everything, itself included. -/
def strictNe : JSNum → JSNum → Bool
  | nan, _ => true
  | _, nan => true
  | a, b => decide (a ≠ b)

/-- `Math.sqrt`, given the host's square root `sqrt` on finite non-negative values. -/
def mathSqrt (sqrt : ℚ → ℚ) : JSNum → JSNum
  | nan => nan
  | pinf => pinf
  | ninf => nan
  | fin q => if q < 0 then nan else fin (sqrt q)

end JSNum

/-- `ToNumber` on a value that is `null` or a finite number: `null` becomes `0`. -/
def toNumber : Option ℚ → JSNum
  | none => JSNum.fin 0
  | some q => JSNum.fin q

/-- Search downwards from the second argument for a `k` with `k * k ≤ n`:
the largest such `k` not above the start, `0` if the search runs out. -/
def natSqrtFrom (n : ℕ) : ℕ → ℕ
  | 0 => 0
  | k + 1 => if (k + 1) * (k + 1) ≤ n then k + 1 else natSqrtFrom n k

/-- A concrete square root on rationals, exact on squares of rationals:
the integer square roots of numerator and denominator. -/
def ratSqrt (q : ℚ) : ℚ :=
  (natSqrtFrom q.num.toNat q.num.toNat : ℚ) / (natSqrtFrom q.den q.den : ℚ)

/-! ## Particle field (`src/script.js`, lines 116-217) -/

/-- The variable `mouse`: each coordinate is `null` until the first `mousemove`. -/
structure Mouse where
  x : Option ℚ
  y : Option ℚ
  deriving DecidableEq

/-- An instance of class `Particle`. The fields set once by the constructor
from finite values are rationals; `x` and `y` are reassigned by `update`. -/
structure Particle where
  x : JSNum
  y : JSNum
  size : ℚ
  baseX : ℚ
  baseY : ℚ
  density : ℚ
  deriving DecidableEq

/-- The constructor of `Particle`; `r1 .. r4` are the four successive results of
`Math.random()`, `width` and `height` are `canvas.width` and `canvas.height`. -/
def Particle.new (width height : ℕ) (r1 r2 r3 r4 : ℚ) : Particle :=
  let x : ℚ := r1 * width
  let y : ℚ := r2 * height
  let size : ℚ := r3 * 2 + 1
  { x := JSNum.fin x, y := JSNum.fin y, size := size,
    baseX := x, baseY := y, density := (r4 * 30) + 1 }

/-- First part of `update` ("Mouse parallax", lines 163-186). -/
def Particle.mouseParallax (sqrt : ℚ → ℚ) (mouse : Mouse) (p : Particle) : Particle :=
  let dx := JSNum.sub (toNumber mouse.x) p.x
  let dy := JSNum.sub (toNumber mouse.y) p.y
  let distance := JSNum.mathSqrt sqrt (JSNum.add (JSNum.mul dx dx) (JSNum.mul dy dy))
  let forceDirectionX := JSNum.div dx distance
  let forceDirectionY := JSNum.div dy distance
  let maxDistance := JSNum.fin 300
  let force := JSNum.div (JSNum.sub maxDistance distance) maxDistance
  let directionX := JSNum.mul (JSNum.mul forceDirectionX force) (JSNum.fin p.density)
  let directionY := JSNum.mul (JSNum.mul forceDirectionY force) (JSNum.fin p.density)
  if JSNum.lt distance maxDistance then
    { p with x := JSNum.sub p.x directionX, y := JSNum.sub p.y directionY }
  else
    let p1 :=
      if JSNum.strictNe p.x (JSNum.fin p.baseX) then
        let dxRes := JSNum.sub p.x (JSNum.fin p.baseX)
        { p with x := JSNum.sub p.x (JSNum.div dxRes (JSNum.fin 10)) }
      else p
    if JSNum.strictNe p1.y (JSNum.fin p1.baseY) then
      let dyRes := JSNum.sub p1.y (JSNum.fin p1.baseY)
      { p1 with y := JSNum.sub p1.y (JSNum.div dyRes (JSNum.fin 10)) }
    else p1

/-- Second part of `update` ("Scroll parallax", lines 188-189). -/
def Particle.scrollParallax (scrollY : ℚ) (p : Particle) : Particle :=
  { p with y := JSNum.add p.y (JSNum.fin (scrollY * 0.05 * (p.density / 30))) }

/-- Third part of `update` ("Keep within hero section", lines 191-193). -/
def Particle.wrap (height : ℕ) (p : Particle) : Particle :=
  let p1 := if JSNum.gt p.y (JSNum.fin height) then { p with y := JSNum.fin 0 } else p
  if JSNum.lt p1.y (JSNum.fin 0) then { p1 with y := JSNum.fin height } else p1

/-- The method `Particle.update` (lines 162-194): the three parts in sequence. -/
def Particle.update (sqrt : ℚ → ℚ) (mouse : Mouse) (scrollY : ℚ) (height : ℕ)
    (p : Particle) : Particle :=
  Particle.wrap height (Particle.scrollParallax scrollY (Particle.mouseParallax sqrt mouse p))

/-- The canvas state the particle code works on: `canvas.width`, `canvas.height`
and the variable `particles`. -/
structure Field where
  width : ℕ
  height : ℕ
  particles : List Particle
  deriving DecidableEq

/-- The function `setCanvasSize` (lines 124-127): the canvas takes the rendered size. -/
def setCanvasSize (offsetWidth offsetHeight : ℕ) (s : Field) : Field :=
  { s with width := offsetWidth, height := offsetHeight }

/-- The `for` loop of `initParticles` (lines 200-202) from counter value `i` on.
`rand` is the stream of results of `Math.random()` from the start of the loop:
the particle pushed at counter `i` consumes draws `4 * i .. 4 * i + 3`. -/
def initParticlesLoop (width height : ℕ) (rand : ℕ → ℚ) (numberOfParticles : ℚ)
    (i : ℕ) (particles : List Particle) : List Particle :=
  if (i : ℚ) < numberOfParticles then
    initParticlesLoop width height rand numberOfParticles (i + 1)
      (particles ++ [Particle.new width height
        (rand (4 * i)) (rand (4 * i + 1)) (rand (4 * i + 2)) (rand (4 * i + 3))])
  else particles
termination_by ⌈numberOfParticles⌉₊ - i
decreasing_by
  have h : (i : ℚ) < numberOfParticles := by assumption
  have h2 : i < ⌈numberOfParticles⌉₊ := Nat.lt_ceil.mpr h
  omega

/-- The function `initParticles` (lines 197-203). -/
def initParticles (rand : ℕ → ℚ) (s : Field) : Field :=
  let numberOfParticles : ℚ := ((s.width : ℚ) * (s.height : ℚ)) / 8000
  { s with particles := initParticlesLoop s.width s.height rand numberOfParticles 0 [] }

/-- The `resize` listener (lines 129-132). -/
def onResize (offsetWidth offsetHeight : ℕ) (rand : ℕ → ℚ) (s : Field) : Field :=
  initParticles rand (setCanvasSize offsetWidth offsetHeight s)

/-! ## Class lists and the theme preference (lines 10-31) -/

/-- The method `classList.contains`. -/
def classContains (tok : String) (l : List String) : Bool := decide (tok ∈ l)

/-- The method `classList.add`. -/
def classAdd (tok : String) (l : List String) : List String :=
  if classContains tok l then l else l ++ [tok]

/-- The method `classList.toggle`. -/
def classToggle (tok : String) (l : List String) : List String :=
  if classContains tok l then l.filter (fun t => t ≠ tok) else l ++ [tok]

/-- What the theme code reads and writes: `body.classList` and the entry
`theme` of `localStorage` (`none` when the key is absent). -/
structure Page where
  classList : List String
  theme : Option String
  deriving DecidableEq

/-- The saved-preference check run at load (lines 14-18). -/
def loadTheme (s : Page) : Page :=
  let currentTheme := s.theme
  if currentTheme = some "light" then
    { s with classList := classAdd "light-mode" s.classList }
  else s

/-- The `click` listener of the theme toggle (lines 21-30). -/
def themeClick (s : Page) : Page :=
  let s1 := { s with classList := classToggle "light-mode" s.classList }
  if classContains "light-mode" s1.classList then
    { s1 with theme := some "light" }
  else
    { s1 with theme := some "dark" }

/-! ## Drawing and the frame loop (lines 153-160, 205-212) -/

/-- One filled circle put on the canvas by `draw`. -/
structure Disc where
  fillStyle : String
  x : JSNum
  y : JSNum
  radius : ℚ
  deriving DecidableEq

/-- The method `Particle.draw` (lines 153-160): the disc it paints, and the
particle after the call. -/
def Particle.draw (bodyClasses : List String) (p : Particle) : Disc × Particle :=
  let theme := if classContains "light-mode" bodyClasses then "light" else "dark"
  let fillStyle := if theme = "light" then "rgba(0, 0, 0, 0.1)" else "rgba(255, 255, 255, 0.15)"
  ({ fillStyle := fillStyle, x := p.x, y := p.y, radius := p.size }, p)

/-- The body of `animate` for one particle (lines 208-209): draw, then update. -/
def animateOne (sqrt : ℚ → ℚ) (bodyClasses : List String) (mouse : Mouse) (scrollY : ℚ)
    (height : ℕ) (p : Particle) : Disc × Particle :=
  let r := Particle.draw bodyClasses p
  (r.1, Particle.update sqrt mouse scrollY height r.2)

/-- One run of `animate` (lines 205-212) without the rescheduling: the discs
painted on the cleared canvas, in order, and the field after the frame. -/
def animateFrame (sqrt : ℚ → ℚ) (bodyClasses : List String) (mouse : Mouse) (scrollY : ℚ)
    (s : Field) : List Disc × Field :=
  let rs := s.particles.map (animateOne sqrt bodyClasses mouse scrollY s.height)
  (rs.map Prod.fst, { s with particles := rs.map Prod.snd })

/-- The inputs of one frame: the pointer and the scroll offset at that time. -/
structure FrameInput where
  mouse : Mouse
  scrollY : ℚ

/-- Successive calls of `update` on one particle, one per frame input, oldest first. -/
def Particle.updates (sqrt : ℚ → ℚ) (height : ℕ) : List FrameInput → Particle → Particle
  | [], p => p
  | f :: fs, p => Particle.updates sqrt height fs (Particle.update sqrt f.mouse f.scrollY height p)

/-! ## Binary64 arithmetic -/

/-- Exponent of the unit in the last place of binary64 at `q`: `52` below the
exponent of `q`, and `-1074` in the subnormal range. -/
def ulpExp (q : ℚ) : ℤ := max (Int.log 2 |q| - 52) (-1074)

/-- The integer nearest to `r`, the even one of the two at a tie. -/
def roundHalfEven (r : ℚ) : ℤ :=
  if r - ⌊r⌋ < 1 / 2 then ⌊r⌋
  else if 1 / 2 < r - ⌊r⌋ then ⌊r⌋ + 1
  else if ⌊r⌋ % 2 = 0 then ⌊r⌋ else ⌊r⌋ + 1

/-- Rounding to binary64 with an exponent unbounded above: the multiple of the
unit in the last place nearest to `q`, ties to even. -/
def round64 (q : ℚ) : ℚ := (roundHalfEven (q / 2 ^ ulpExp q) : ℚ) * 2 ^ ulpExp q

/-- The number an exact finite result becomes: its rounding, or an infinity of
its sign when the rounded magnitude reaches `2 ^ 1024`. -/
def JSNum.ofExact (q : ℚ) : JSNum :=
  if 2 ^ 1024 ≤ |round64 q| then (if 0 < q then JSNum.pinf else JSNum.ninf)
  else JSNum.fin (round64 q)

/-- Rounding of the result of an exact operation. -/
def JSNum.rounded : JSNum → JSNum
  | JSNum.fin q => JSNum.ofExact q
  | a => a

/-- The operator `+` in binary64. -/
def JSNum.add64 (a b : JSNum) : JSNum := JSNum.rounded (JSNum.add a b)

/-- The operator `-` in binary64. -/
def JSNum.sub64 (a b : JSNum) : JSNum := JSNum.rounded (JSNum.sub a b)

/-- The operator `*` in binary64. -/
def JSNum.mul64 (a b : JSNum) : JSNum := JSNum.rounded (JSNum.mul a b)

/-- The operator `/` in binary64. -/
def JSNum.div64 (a b : JSNum) : JSNum := JSNum.rounded (JSNum.div a b)

/-- The correctly rounded binary64 square root of a non-negative rational:
the integer square root of `q * 4 ^ k`, with more than sixty significant bits,
and half a unit added when it is not exact, rounded to binary64. -/
def sqrt64 (q : ℚ) : ℚ :=
  if q ≤ 0 then 0
  else
    let k : ℤ := 64 - Int.log 2 q / 2
    let scaled : ℚ := q * 2 ^ (2 * k)
    let s : ℕ := Nat.sqrt ⌊scaled⌋₊
    let sticky : ℚ := if (s : ℚ) * (s : ℚ) = scaled then 0 else 1 / 2
    round64 (((s : ℚ) + sticky) / 2 ^ k)

/-- The constructor of `Particle` (lines 144-151) in binary64; `r1 .. r4` are the
four successive results of `Math.random()`. The canvas dimensions are below
`2 ^ 32` and the draws below `1`, so no result is near the overflow threshold. -/
def Particle.new64 (width height : ℕ) (r1 r2 r3 r4 : ℚ) : Particle :=
  let x : ℚ := round64 (r1 * width)
  let y : ℚ := round64 (r2 * height)
  let size : ℚ := round64 (round64 (r3 * 2) + 1)
  { x := JSNum.fin x, y := JSNum.fin y, size := size,
    baseX := x, baseY := y, density := round64 (round64 (r4 * 30) + 1) }

/-- The value of the variable `distance` of `update` (lines 164-166) in binary64. -/
def Particle.distance64 (sqrt : ℚ → ℚ) (mouse : Mouse) (p : Particle) : JSNum :=
  let dx := JSNum.sub64 (toNumber mouse.x) p.x
  let dy := JSNum.sub64 (toNumber mouse.y) p.y
  JSNum.mathSqrt sqrt (JSNum.add64 (JSNum.mul64 dx dx) (JSNum.mul64 dy dy))

/-- First part of `update` ("Mouse parallax", lines 163-186) in binary64. -/
def Particle.mouseParallax64 (sqrt : ℚ → ℚ) (mouse : Mouse) (p : Particle) : Particle :=
  let dx := JSNum.sub64 (toNumber mouse.x) p.x
  let dy := JSNum.sub64 (toNumber mouse.y) p.y
  let distance := Particle.distance64 sqrt mouse p
  let forceDirectionX := JSNum.div64 dx distance
  let forceDirectionY := JSNum.div64 dy distance
  let maxDistance := JSNum.fin 300
  let force := JSNum.div64 (JSNum.sub64 maxDistance distance) maxDistance
  let directionX := JSNum.mul64 (JSNum.mul64 forceDirectionX force) (JSNum.fin p.density)
  let directionY := JSNum.mul64 (JSNum.mul64 forceDirectionY force) (JSNum.fin p.density)
  if JSNum.lt distance maxDistance then
    { p with x := JSNum.sub64 p.x directionX, y := JSNum.sub64 p.y directionY }
  else
    let p1 :=
      if JSNum.strictNe p.x (JSNum.fin p.baseX) then
        let dxRes := JSNum.sub64 p.x (JSNum.fin p.baseX)
        { p with x := JSNum.sub64 p.x (JSNum.div64 dxRes (JSNum.fin 10)) }
      else p
    if JSNum.strictNe p1.y (JSNum.fin p1.baseY) then
      let dyRes := JSNum.sub64 p1.y (JSNum.fin p1.baseY)
      { p1 with y := JSNum.sub64 p1.y (JSNum.div64 dyRes (JSNum.fin 10)) }
    else p1

/-! ## Sample states used at concrete inputs -/

/-- A particle as the constructor can build it on a 100 x 100 canvas
(draws `0`, `1/100`, `0`, `29/30`): at `(0, 1)` with density `30`. -/
def sampleParticle : Particle := Particle.new 100 100 0 (1 / 100) 0 (29 / 30)

/-- A particle as the constructor can build it on a 100 x 100 canvas
(draws `3/100`, `4/100`, `0`, `29/30`): at rest at `(3, 4)` with density `30`. -/
def cornerParticle : Particle := Particle.new 100 100 (3 / 100) (4 / 100) 0 (29 / 30)

/-- A page in dark mode whose body has two unrelated classes and no stored theme. -/
def darkPage : Page := { classList := ["home", "wide"], theme := none }

/-- The largest binary64 value below `1`, a possible result of `Math.random()`. -/
def predOne : ℚ := 1 - 1 / 2 ^ 53

/-- A particle one step of `2 ^ (-49)` to the right of its base position `(3, 4)`. -/
def nearRestParticle : Particle :=
  { x := JSNum.fin (3 + 1 / 2 ^ 49), y := JSNum.fin 4, size := 1, baseX := 3, baseY := 4,
    density := 30 }

/-- A particle at rest whose distance to the point `(200, 1)` is `300 - 2 ^ (-44)`. -/
def rimParticle : Particle :=
  { x := JSNum.fin (500 - 1 / 2 ^ 44), y := JSNum.fin 1, size := 1,
    baseX := 500 - 1 / 2 ^ 44, baseY := 1, density := 30 }

/-- A particle at `(0, 1)`, at rest, of density `30`. -/
def unitParticle : Particle :=
  { x := JSNum.fin 0, y := JSNum.fin 1, size := 1, baseX := 0, baseY := 1, density := 30 }

/-! ## Auxiliary facts on numbers -/

@[simp] theorem JSNum.add_fin (a b : ℚ) : JSNum.add (.fin a) (.fin b) = .fin (a + b) := rfl

@[simp] theorem JSNum.sub_fin (a b : ℚ) : JSNum.sub (.fin a) (.fin b) = .fin (a - b) := by
  simp [JSNum.sub, JSNum.neg, sub_eq_add_neg]

@[simp] theorem JSNum.mul_fin (a b : ℚ) : JSNum.mul (.fin a) (.fin b) = .fin (a * b) := rfl

theorem JSNum.div_fin (a b : ℚ) (hb : b ≠ 0) : JSNum.div (.fin a) (.fin b) = .fin (a / b) := by
  simp [JSNum.div, hb]

@[simp] theorem JSNum.lt_fin (a b : ℚ) : JSNum.lt (.fin a) (.fin b) = decide (a < b) := rfl

@[simp] theorem JSNum.strictNe_fin (a b : ℚ) :
    JSNum.strictNe (.fin a) (.fin b) = decide (a ≠ b) := by
  simp [JSNum.strictNe]

theorem JSNum.mathSqrt_fin (sqrt : ℚ → ℚ) (q : ℚ) (hq : 0 ≤ q) :
    JSNum.mathSqrt sqrt (.fin q) = .fin (sqrt q) := by
  simp [JSNum.mathSqrt, not_lt.mpr hq]

theorem natSqrtFrom_eq (n k : ℕ) (hk : k * k ≤ n) (hn : n < (k + 1) * (k + 1)) :
    ∀ m : ℕ, k ≤ m → natSqrtFrom n m = k := by
  intro m
  induction m with
  | zero =>
    intro h
    have : k = 0 := by omega
    subst this
    rfl
  | succ m ih =>
    intro h
    rcases Nat.lt_or_ge k (m + 1) with hlt | hge
    · have hkm : k + 1 ≤ m + 1 := hlt
      have hsq : (k + 1) * (k + 1) ≤ (m + 1) * (m + 1) := Nat.mul_le_mul hkm hkm
      have hnot : ¬ (m + 1) * (m + 1) ≤ n := by omega
      simp only [natSqrtFrom, hnot, if_false]
      exact ih (by omega)
    · have hkeq : k = m + 1 := by omega
      subst hkeq
      simp [natSqrtFrom, hk]

theorem natSqrtFrom_sq (k : ℕ) : natSqrtFrom (k * k) (k * k) = k := by
  apply natSqrtFrom_eq (k * k) k (le_refl _)
  · nlinarith
  · nlinarith

/-- The concrete square root is exact on squares of non-negative rationals. -/
theorem ratSqrt_mul_self (q : ℚ) (hq : 0 ≤ q) : ratSqrt (q * q) = q := by
  have hnum : (q * q).num = q.num * q.num := Rat.mul_self_num q
  have hden : (q * q).den = q.den * q.den := Rat.mul_self_den q
  have hn0 : 0 ≤ q.num := Rat.num_nonneg.mpr hq
  obtain ⟨a, ha⟩ := Int.eq_ofNat_of_zero_le hn0
  have htn : (q * q).num.toNat = a * a := by
    rw [hnum, ha]
    exact_mod_cast Int.toNat_natCast (a * a)
  unfold ratSqrt
  rw [htn, hden, natSqrtFrom_sq, natSqrtFrom_sq]
  have hq' : q = (q.num : ℚ) / (q.den : ℚ) := (Rat.num_div_den q).symm
  rw [ha] at hq'
  simpa using hq'.symm

/-! ## Wraparound (C1) -/

/-- After the wraparound step `y` is `NaN` or a finite value in `[0, height]`. -/
theorem Particle.wrap_y (height : ℕ) (p : Particle) :
    (Particle.wrap height p).y = JSNum.nan ∨
      ∃ q : ℚ, (Particle.wrap height p).y = JSNum.fin q ∧ 0 ≤ q ∧ q ≤ height := by
  have hh : (0 : ℚ) ≤ height := Nat.cast_nonneg height
  rcases p with ⟨x, y, size, baseX, baseY, density⟩
  cases y with
  | nan => left; simp [Particle.wrap, JSNum.gt, JSNum.lt]
  | pinf => right; exact ⟨0, by simp [Particle.wrap, JSNum.gt, JSNum.lt], le_refl _, hh⟩
  | ninf => right; exact ⟨height, by simp [Particle.wrap, JSNum.gt, JSNum.lt], hh, le_refl _⟩
  | fin q =>
    right
    by_cases h1 : (height : ℚ) < q
    · exact ⟨0, by simp [Particle.wrap, JSNum.gt, h1], le_refl _, hh⟩
    · by_cases h2 : q < 0
      · exact ⟨height, by simp [Particle.wrap, JSNum.gt, h1, h2], hh, le_refl _⟩
      · exact ⟨q, by simp [Particle.wrap, JSNum.gt, h1, h2], not_lt.mp h2, not_lt.mp h1⟩

theorem Particle.updates_append (sqrt : ℚ → ℚ) (height : ℕ) (fs : List FrameInput)
    (f : FrameInput) (p : Particle) :
    Particle.updates sqrt height (fs ++ [f]) p =
      Particle.update sqrt f.mouse f.scrollY height (Particle.updates sqrt height fs p) := by
  induction fs generalizing p with
  | nil => rfl
  | cons g gs ih => simp [Particle.updates, ih]

theorem ratSqrt_zero : ratSqrt 0 = 0 := by
  have h := ratSqrt_mul_self 0 (le_refl _)
  norm_num at h
  exact h

theorem ratSqrt_hundred : ratSqrt 100 = 10 := by
  have h := ratSqrt_mul_self 10 (by norm_num)
  norm_num at h
  exact h

theorem ratSqrt_twentyfive : ratSqrt 25 = 5 := by
  have h := ratSqrt_mul_self 5 (by norm_num)
  norm_num at h
  exact h

/-- One update of `sampleParticle` with the pointer at `(0, 11)`, ten units below
it, on a canvas of height `100` without scroll: `y` goes from `1` to `-28`, which
the wraparound replaces by `100`. -/
theorem sampleParticle_update_y :
    (Particle.update ratSqrt ⟨some 0, some 11⟩ 0 100 sampleParticle).y = JSNum.fin 100 := by
  simp only [Particle.update, Particle.mouseParallax, Particle.scrollParallax, Particle.wrap,
    sampleParticle, Particle.new, toNumber, JSNum.sub_fin, JSNum.mul_fin, JSNum.add_fin]
  norm_num [JSNum.mathSqrt, ratSqrt_hundred, JSNum.div, JSNum.gt, JSNum.lt]

/-- C1, as stated, fails: one update step with the pointer at `(0, 11)`, ten units
below the particle `sampleParticle`, on a canvas of height `100` and without scroll,
leaves `y = 100 = height`; so `y < height` does not hold after the step. -/
theorem C1_counterexample :
    ¬ ∃ q : ℚ, (Particle.update ratSqrt ⟨some 0, some 11⟩ 0 100 sampleParticle).y = JSNum.fin q
        ∧ 0 ≤ q ∧ q < ((100 : ℕ) : ℚ) := by
  rintro ⟨q, hq, -, hlt⟩
  rw [sampleParticle_update_y] at hq
  injection hq with hq
  subst hq
  norm_num at hlt

/-- C1 (amended): on a canvas of any height, after one or more update steps,
with any pointer states and scroll offsets along the way and whatever the host's
square root, the particle's `y`, unless it is `NaN`, is a finite value with
`0 ≤ y ≤ height`: the upper bound is attained, not strict. -/
theorem C1_updates_y_range (sqrt : ℚ → ℚ) (height : ℕ) (fs : List FrameInput) (p : Particle)
    (hfs : fs ≠ [])
    (hy : (Particle.updates sqrt height fs p).y ≠ JSNum.nan) :
    ∃ q : ℚ, (Particle.updates sqrt height fs p).y = JSNum.fin q ∧ 0 ≤ q ∧ q ≤ height := by
  obtain ⟨gs, f, rfl⟩ : ∃ gs f, fs = gs ++ [f] := by
    rcases List.eq_nil_or_concat fs with h | ⟨gs, f, h⟩
    · exact absurd h hfs
    · exact ⟨gs, f, by simpa using h⟩
  rw [Particle.updates_append] at hy ⊢
  unfold Particle.update at hy ⊢
  rcases Particle.wrap_y height
      (Particle.scrollParallax f.scrollY
        (Particle.mouseParallax sqrt f.mouse (Particle.updates sqrt height gs p))) with h | h
  · exact absurd h hy
  · exact h

/-- Witness of C1 (amended): one update of `sampleParticle`, pointer at `(0, 11)`. -/
theorem C1_updates_y_range_witness :
    ([⟨⟨some 0, some 11⟩, 0⟩] : List FrameInput) ≠ [] ∧
    (Particle.updates ratSqrt 100 [⟨⟨some 0, some 11⟩, 0⟩] sampleParticle).y ≠ JSNum.nan ∧
    ∃ q : ℚ, (Particle.updates ratSqrt 100 [⟨⟨some 0, some 11⟩, 0⟩] sampleParticle).y
        = JSNum.fin q ∧ 0 ≤ q ∧ q ≤ ((100 : ℕ) : ℚ) :=
  have hne : (Particle.updates ratSqrt 100 [⟨⟨some 0, some 11⟩, 0⟩] sampleParticle).y
      ≠ JSNum.nan := by
    simp [Particle.updates, sampleParticle_update_y]
  ⟨by simp, hne,
    C1_updates_y_range ratSqrt 100 [⟨⟨some 0, some 11⟩, 0⟩] sampleParticle (by simp) hne⟩

/-! ## Unset pointer (C2) and pointer on the particle (C3) -/

/-- C2 (code at the failing input): with both pointer coordinates still `null`,
`null` counts as `0` in `mouse.x - this.x`, so the pointer acts from the origin.
The particle `cornerParticle`, at rest at `(3, 4)` (distance `5` from the origin),
is pushed to `(207/10, 138/5)` by the repulsion branch, whereas the relaxation
branch would have left it at `(3, 4)`. -/
theorem C2_null_pointer_repels :
    (Particle.mouseParallax ratSqrt ⟨none, none⟩ cornerParticle).x = JSNum.fin (207 / 10) ∧
    (Particle.mouseParallax ratSqrt ⟨none, none⟩ cornerParticle).y = JSNum.fin (138 / 5) ∧
    (Particle.mouseParallax ratSqrt ⟨none, none⟩ cornerParticle).x
      ≠ JSNum.fin (3 - (3 - cornerParticle.baseX) / 10) ∧
    (Particle.mouseParallax ratSqrt ⟨none, none⟩ cornerParticle).y
      ≠ JSNum.fin (4 - (4 - cornerParticle.baseY) / 10) := by
  have hx : (Particle.mouseParallax ratSqrt ⟨none, none⟩ cornerParticle).x
      = JSNum.fin (207 / 10) := by
    simp only [Particle.mouseParallax, cornerParticle, Particle.new, toNumber, JSNum.sub_fin,
      JSNum.mul_fin, JSNum.add_fin]
    norm_num [JSNum.mathSqrt, ratSqrt_twentyfive, JSNum.div]
  have hy : (Particle.mouseParallax ratSqrt ⟨none, none⟩ cornerParticle).y
      = JSNum.fin (138 / 5) := by
    simp only [Particle.mouseParallax, cornerParticle, Particle.new, toNumber, JSNum.sub_fin,
      JSNum.mul_fin, JSNum.add_fin]
    norm_num [JSNum.mathSqrt, ratSqrt_twentyfive, JSNum.div]
  refine ⟨hx, hy, ?_, ?_⟩
  · rw [hx]
    norm_num [cornerParticle, Particle.new]
  · rw [hy]
    norm_num [cornerParticle, Particle.new]

/-- C3 (code at the failing input): with the pointer exactly on the particle
`sampleParticle` (both at `(0, 1)`), `distance` is `0`, `dx / distance` is `0 / 0 = NaN`,
the test `distance < maxDistance` holds and `NaN` is subtracted from the position:
after one update both `x` and `y` are `NaN`; a second update (pointer unchanged)
leaves them `NaN`. -/
theorem C3_zero_distance_nan :
    (Particle.update ratSqrt ⟨some 0, some 1⟩ 0 100 sampleParticle).x = JSNum.nan ∧
    (Particle.update ratSqrt ⟨some 0, some 1⟩ 0 100 sampleParticle).y = JSNum.nan ∧
    (Particle.updates ratSqrt 100 [⟨⟨some 0, some 1⟩, 0⟩, ⟨⟨some 0, some 1⟩, 0⟩]
      sampleParticle).x = JSNum.nan ∧
    (Particle.updates ratSqrt 100 [⟨⟨some 0, some 1⟩, 0⟩, ⟨⟨some 0, some 1⟩, 0⟩]
      sampleParticle).y = JSNum.nan := by
  have h1 : Particle.update ratSqrt ⟨some 0, some 1⟩ 0 100 sampleParticle
      = { sampleParticle with x := JSNum.nan, y := JSNum.nan } := by
    simp only [Particle.update, Particle.mouseParallax, Particle.scrollParallax, Particle.wrap,
      sampleParticle, Particle.new, toNumber, JSNum.sub_fin, JSNum.mul_fin, JSNum.add_fin]
    norm_num [JSNum.mathSqrt, ratSqrt_zero, JSNum.div, JSNum.gt, JSNum.lt, JSNum.mul,
      JSNum.sub, JSNum.add, JSNum.neg]
  have h2 : Particle.update ratSqrt ⟨some 0, some 1⟩ 0 100
      { sampleParticle with x := JSNum.nan, y := JSNum.nan }
      = { sampleParticle with x := JSNum.nan, y := JSNum.nan } := by
    simp [Particle.update, Particle.mouseParallax, Particle.scrollParallax, Particle.wrap,
      sampleParticle, Particle.new, toNumber, JSNum.mathSqrt, JSNum.div, JSNum.gt, JSNum.lt,
      JSNum.mul, JSNum.sub, JSNum.add, JSNum.neg, JSNum.strictNe]
  refine ⟨by rw [h1], by rw [h1], ?_, ?_⟩
  · simp only [Particle.updates]
    rw [h1, h2]
  · simp only [Particle.updates]
    rw [h1, h2]

/-! ## Rebuilding the collection (C4) -/

theorem initParticlesLoop_length (width height : ℕ) (rand : ℕ → ℚ) (n : ℚ) :
    ∀ (k i : ℕ) (ps : List Particle), ⌈n⌉₊ - i = k →
      (initParticlesLoop width height rand n i ps).length = ps.length + k := by
  intro k
  induction k with
  | zero =>
    intro i ps hk
    have hle : ⌈n⌉₊ ≤ i := by omega
    have hnot : ¬ (i : ℚ) < n := fun h => absurd (Nat.lt_ceil.mpr h) (by omega)
    rw [initParticlesLoop]
    simp [hnot]
  | succ k ih =>
    intro i ps hk
    have hlt : (i : ℚ) < n := Nat.lt_ceil.mp (by omega)
    rw [initParticlesLoop]
    simp only [hlt, if_true]
    rw [ih (i + 1) _ (by omega)]
    simp
    omega

theorem initParticlesLoop_mem (width height : ℕ) (rand : ℕ → ℚ) (n : ℚ) :
    ∀ (k i : ℕ) (ps : List Particle), ⌈n⌉₊ - i = k →
      ∀ p ∈ initParticlesLoop width height rand n i ps, p ∈ ps ∨
        ∃ j : ℕ, p = Particle.new width height
          (rand (4 * j)) (rand (4 * j + 1)) (rand (4 * j + 2)) (rand (4 * j + 3)) := by
  intro k
  induction k with
  | zero =>
    intro i ps hk p hp
    have hnot : ¬ (i : ℚ) < n := fun h => absurd (Nat.lt_ceil.mpr h) (by omega)
    rw [initParticlesLoop] at hp
    simp only [hnot, if_false] at hp
    exact Or.inl hp
  | succ k ih =>
    intro i ps hk p hp
    have hlt : (i : ℚ) < n := Nat.lt_ceil.mp (by omega)
    rw [initParticlesLoop] at hp
    simp only [hlt, if_true] at hp
    rcases ih (i + 1) _ (by omega) p hp with h | h
    · rcases List.mem_append.mp h with h' | h'
      · exact Or.inl h'
      · exact Or.inr ⟨i, by simpa using h'⟩
    · exact Or.inr h

theorem initParticles_length (rand : ℕ → ℚ) (s : Field) :
    (initParticles rand s).particles.length
      = ⌈((s.width : ℚ) * (s.height : ℚ)) / 8000⌉₊ := by
  unfold initParticles
  simp only
  rw [initParticlesLoop_length s.width s.height rand _ _ 0 [] rfl]
  simp

/-- C4, as stated, fails: a resize to 100 x 100 gives `100 * 100 / 8000 = 1.25`
as loop bound, the loop runs for `i = 0` and `i = 1`, and the collection holds
`2` particles, not `floor 1.25 = 1`. -/
theorem C4_counterexample :
    (onResize 100 100 (fun _ => 0) ⟨400, 300, []⟩).particles.length = 2 ∧
    (onResize 100 100 (fun _ => 0) ⟨400, 300, []⟩).particles.length
      ≠ ⌊(((100 : ℕ) : ℚ) * ((100 : ℕ) : ℚ)) / 8000⌋₊ := by
  have h2 : (onResize 100 100 (fun _ => 0) ⟨400, 300, []⟩).particles.length = 2 := by
    unfold onResize
    rw [initParticles_length]
    simp only [setCanvasSize]
    rw [Nat.ceil_eq_iff (by norm_num)]
    norm_num
  have hf : ⌊(((100 : ℕ) : ℚ) * ((100 : ℕ) : ℚ)) / 8000⌋₊ = 1 := by
    rw [Nat.floor_eq_iff (by norm_num)]
    norm_num
  exact ⟨h2, by rw [h2, hf]; norm_num⟩

/-- C4 (amended): for every rendered size `w x h`, every random stream and every
previous state, the resize listener (and `initParticles` alone, for the current
size) leaves exactly `ceil (w * h / 8000)` particles, in a result that does not
depend on the particles held before, each one built by the constructor for the
new size; the count is `floor (w * h / 8000)` when `8000` divides `w * h`, and a
resize from 400 x 300 to 800 x 600 leaves `60` particles. -/
theorem C4_rebuild_count (w h : ℕ) (rand : ℕ → ℚ) (s : Field) :
    (onResize w h rand s).particles.length = ⌈((w : ℚ) * (h : ℚ)) / 8000⌉₊ ∧
    (initParticles rand s).particles.length
      = ⌈((s.width : ℚ) * (s.height : ℚ)) / 8000⌉₊ ∧
    onResize w h rand s = onResize w h rand { s with particles := [] } ∧
    (∀ p ∈ (onResize w h rand s).particles, ∃ j : ℕ, p = Particle.new w h
        (rand (4 * j)) (rand (4 * j + 1)) (rand (4 * j + 2)) (rand (4 * j + 3))) ∧
    (8000 ∣ w * h →
      (onResize w h rand s).particles.length = ⌊((w : ℚ) * (h : ℚ)) / 8000⌋₊) ∧
    (onResize 800 600 rand (onResize 400 300 rand s)).particles.length = 60 := by
  have hlen : ∀ (a b : ℕ) (t : Field),
      (onResize a b rand t).particles.length = ⌈((a : ℚ) * (b : ℚ)) / 8000⌉₊ := by
    intro a b t
    unfold onResize
    rw [initParticles_length]
    rfl
  refine ⟨hlen w h s, initParticles_length rand s, rfl, ?_, ?_, ?_⟩
  · intro p hp
    have hp' : p ∈ initParticlesLoop w h rand (((w : ℚ) * (h : ℚ)) / 8000) 0 [] := hp
    rcases initParticlesLoop_mem w h rand _ _ 0 [] rfl p hp' with h0 | h0
    · simp at h0
    · exact h0
  · rintro ⟨c, hc⟩
    rw [hlen]
    have hq : ((w : ℚ) * (h : ℚ)) / 8000 = (c : ℚ) := by
      have : ((w : ℚ) * (h : ℚ)) = 8000 * (c : ℚ) := by exact_mod_cast hc
      rw [this]
      field_simp
    rw [hq, Nat.ceil_natCast, Nat.floor_natCast]
  · rw [hlen]
    have hq : (((800 : ℕ) : ℚ) * ((600 : ℕ) : ℚ)) / 8000 = ((60 : ℕ) : ℚ) := by norm_num
    rw [hq, Nat.ceil_natCast]

/-- Witness of C4 (amended) for its divisibility case: 800 x 600. -/
theorem C4_rebuild_count_witness :
    8000 ∣ 800 * 600 ∧
    (onResize 800 600 (fun _ => 0) ⟨400, 300, []⟩).particles.length
      = ⌊(((800 : ℕ) : ℚ) * ((600 : ℕ) : ℚ)) / 8000⌋₊ :=
  ⟨by decide,
    (C4_rebuild_count 800 600 (fun _ => 0) ⟨400, 300, []⟩).2.2.2.2.1 (by decide)⟩

/-! ## Fixed fields (C8) and scroll drift (C7) -/

/-- The pointer step changes no field other than `x` and `y`. -/
theorem Particle.mouseParallax_fixed (sqrt : ℚ → ℚ) (mouse : Mouse) (p : Particle) :
    (Particle.mouseParallax sqrt mouse p).baseX = p.baseX ∧
    (Particle.mouseParallax sqrt mouse p).baseY = p.baseY ∧
    (Particle.mouseParallax sqrt mouse p).size = p.size ∧
    (Particle.mouseParallax sqrt mouse p).density = p.density := by
  unfold Particle.mouseParallax
  simp only
  split_ifs <;> exact ⟨rfl, rfl, rfl, rfl⟩

/-- The wraparound step changes no field other than `y`. -/
theorem Particle.wrap_fixed (height : ℕ) (p : Particle) :
    (Particle.wrap height p).x = p.x ∧
    (Particle.wrap height p).baseX = p.baseX ∧
    (Particle.wrap height p).baseY = p.baseY ∧
    (Particle.wrap height p).size = p.size ∧
    (Particle.wrap height p).density = p.density := by
  unfold Particle.wrap
  simp only
  split_ifs <;> exact ⟨rfl, rfl, rfl, rfl, rfl⟩

theorem Particle.update_fixed (sqrt : ℚ → ℚ) (mouse : Mouse) (scrollY : ℚ) (height : ℕ)
    (p : Particle) :
    (Particle.update sqrt mouse scrollY height p).baseX = p.baseX ∧
    (Particle.update sqrt mouse scrollY height p).baseY = p.baseY ∧
    (Particle.update sqrt mouse scrollY height p).size = p.size ∧
    (Particle.update sqrt mouse scrollY height p).density = p.density := by
  obtain ⟨-, w1, w2, w3, w4⟩ := Particle.wrap_fixed height
    (Particle.scrollParallax scrollY (Particle.mouseParallax sqrt mouse p))
  obtain ⟨m1, m2, m3, m4⟩ := Particle.mouseParallax_fixed sqrt mouse p
  unfold Particle.update
  refine ⟨by rw [w1]; exact m1, by rw [w2]; exact m2, by rw [w3]; exact m3, by rw [w4]; exact m4⟩

/-- C7: in one update step, if the pointer step leaves a finite `y0`, the scroll
step makes it `y0 + s * 0.05 * (density / 30)`, with the density the particle had
before the step, and leaves `x` as the pointer step left it; the wraparound is
applied to that result. For any `y` (finite or not) the scroll step is the
addition of that amount. With `s = 1000` and `density = 30` the amount is `50`. -/
theorem C7_scroll_drift (sqrt : ℚ → ℚ) (mouse : Mouse) (s : ℚ) (height : ℕ) (p : Particle)
    (y0 : ℚ) (hy : (Particle.mouseParallax sqrt mouse p).y = JSNum.fin y0) :
    (Particle.scrollParallax s (Particle.mouseParallax sqrt mouse p)).y
      = JSNum.fin (y0 + s * 0.05 * (p.density / 30)) ∧
    (Particle.scrollParallax s (Particle.mouseParallax sqrt mouse p)).x
      = (Particle.mouseParallax sqrt mouse p).x ∧
    Particle.update sqrt mouse s height p
      = Particle.wrap height (Particle.scrollParallax s (Particle.mouseParallax sqrt mouse p)) ∧
    (Particle.update sqrt mouse s height p).x = (Particle.mouseParallax sqrt mouse p).x ∧
    (∀ q : Particle, (Particle.scrollParallax s q).y
      = JSNum.add q.y (JSNum.fin (s * 0.05 * (q.density / 30))) ∧
      (Particle.scrollParallax s q).x = q.x) ∧
    (s = 1000 → p.density = 30 →
      (Particle.scrollParallax s (Particle.mouseParallax sqrt mouse p)).y
        = JSNum.fin (y0 + 50)) := by
  have hdens := (Particle.mouseParallax_fixed sqrt mouse p).2.2.2
  have h1 : (Particle.scrollParallax s (Particle.mouseParallax sqrt mouse p)).y
      = JSNum.fin (y0 + s * 0.05 * (p.density / 30)) := by
    simp only [Particle.scrollParallax, hy, hdens, JSNum.add_fin]
  refine ⟨h1, rfl, rfl, ?_, fun q => ⟨rfl, rfl⟩, ?_⟩
  · unfold Particle.update
    rw [(Particle.wrap_fixed height _).1]
    rfl
  · intro hs hd
    rw [h1, hs, hd]
    norm_num

/-- Witness of C7: `cornerParticle` (density `30`), pointer unset, `scrollY = 1000`. -/
theorem C7_scroll_drift_witness :
    (Particle.mouseParallax ratSqrt ⟨none, none⟩ cornerParticle).y = JSNum.fin (138 / 5) ∧
    (Particle.scrollParallax 1000 (Particle.mouseParallax ratSqrt ⟨none, none⟩ cornerParticle)).y
      = JSNum.fin (138 / 5 + 50) :=
  have hy : (Particle.mouseParallax ratSqrt ⟨none, none⟩ cornerParticle).y
      = JSNum.fin (138 / 5) := by
    simp only [Particle.mouseParallax, cornerParticle, Particle.new, toNumber, JSNum.sub_fin,
      JSNum.mul_fin, JSNum.add_fin]
    norm_num [JSNum.mathSqrt, ratSqrt_twentyfive, JSNum.div]
  ⟨hy, (C7_scroll_drift ratSqrt ⟨none, none⟩ 1000 100 cornerParticle (138 / 5) hy).2.2.2.2.2 rfl
    (by norm_num [cornerParticle, Particle.new])⟩

/-- C8: `update` and `draw` leave `baseX`, `baseY`, `size` and `density` of a
particle as they were, for every pointer state, scroll offset, canvas height and
host square root; `draw` leaves the whole particle unchanged, and so one frame of
`animate` keeps these four fields of every particle of the collection, in order. -/
theorem C8_fixed_fields (sqrt : ℚ → ℚ) (bodyClasses : List String) (mouse : Mouse)
    (scrollY : ℚ) (height : ℕ) (p : Particle) (s : Field) :
    (Particle.update sqrt mouse scrollY height p).baseX = p.baseX ∧
    (Particle.update sqrt mouse scrollY height p).baseY = p.baseY ∧
    (Particle.update sqrt mouse scrollY height p).size = p.size ∧
    (Particle.update sqrt mouse scrollY height p).density = p.density ∧
    (Particle.draw bodyClasses p).2 = p ∧
    (animateFrame sqrt bodyClasses mouse scrollY s).2.particles.map
        (fun q => (q.baseX, q.baseY, q.size, q.density))
      = s.particles.map (fun q => (q.baseX, q.baseY, q.size, q.density)) := by
  obtain ⟨u1, u2, u3, u4⟩ := Particle.update_fixed sqrt mouse scrollY height p
  refine ⟨u1, u2, u3, u4, rfl, ?_⟩
  simp only [animateFrame, List.map_map]
  apply List.map_congr_left
  intro q _
  obtain ⟨v1, v2, v3, v4⟩ := Particle.update_fixed sqrt mouse scrollY s.height q
  simp only [Function.comp, animateOne, Particle.draw, v1, v2, v3, v4]

/-! ## Saved theme (C10) -/

theorem classContains_classAdd (tok : String) (l : List String) :
    classContains tok (classAdd tok l) = true := by
  by_cases h : tok ∈ l <;> simp [classAdd, classContains, h]

theorem classContains_classToggle (tok : String) (l : List String) :
    classContains tok (classToggle tok l) = !classContains tok l := by
  by_cases h : tok ∈ l <;> simp [classToggle, classContains, h]

/-- C10: after a click on the theme toggle, from any page state, the stored
`theme` is `light` exactly when the body carries `light-mode` and `dark`
exactly when it does not; the click flips the mode; and the load-time check,
run on a body without `light-mode` with that stored value, puts the body in the
same mode as after the click. -/
theorem C10_saved_theme_round_trip (s : Page) (fresh : List String)
    (hfresh : classContains "light-mode" fresh = false) :
    ((themeClick s).theme = some "light"
      ↔ classContains "light-mode" (themeClick s).classList = true) ∧
    ((themeClick s).theme = some "dark"
      ↔ classContains "light-mode" (themeClick s).classList = false) ∧
    classContains "light-mode" (themeClick s).classList
      = !classContains "light-mode" s.classList ∧
    classContains "light-mode"
        (loadTheme { classList := fresh, theme := (themeClick s).theme }).classList
      = classContains "light-mode" (themeClick s).classList := by
  have hne : ("dark" : String) ≠ "light" := by decide
  have hne' : ("light" : String) ≠ "dark" := by decide
  have ht := classContains_classToggle "light-mode" s.classList
  by_cases h : classContains "light-mode" (classToggle "light-mode" s.classList) = true
  · have hc : themeClick s
        = { classList := classToggle "light-mode" s.classList, theme := some "light" } := by
      simp [themeClick, h]
    rw [hc]
    refine ⟨by simp [h], by simp [h, hne'], ht, ?_⟩
    simp [loadTheme, classContains_classAdd, h]
  · have h' : classContains "light-mode" (classToggle "light-mode" s.classList) = false := by
      simpa using h
    have hc : themeClick s
        = { classList := classToggle "light-mode" s.classList, theme := some "dark" } := by
      simp [themeClick, h']
    rw [hc]
    refine ⟨by simp [h', hne], by simp [h'], ht, ?_⟩
    simp [loadTheme, hne, h', hfresh]

/-- Witness of C10: a click on `darkPage`, then a load on a body that has only
the class `home`. -/
theorem C10_saved_theme_round_trip_witness :
    classContains "light-mode" ["home"] = false ∧
    (themeClick darkPage).theme = some "light" ∧
    classContains "light-mode" (loadTheme ⟨["home"], (themeClick darkPage).theme⟩).classList
      = true :=
  have hf : classContains "light-mode" ["home"] = false := by decide
  have h := C10_saved_theme_round_trip darkPage ["home"] hf
  have hl : classContains "light-mode" (themeClick darkPage).classList = true := by
    decide
  ⟨hf, h.1.mpr hl, h.2.2.2.trans hl⟩

/-! ## Binary64 rounding: auxiliary facts -/

theorem roundHalfEven_nearest (r : ℚ) (n : ℤ) :
    |(roundHalfEven r : ℚ) - r| ≤ |(n : ℚ) - r| := by
  have hf1 : ((⌊r⌋ : ℤ) : ℚ) ≤ r := Int.floor_le r
  have hf2 : r < ((⌊r⌋ : ℤ) : ℚ) + 1 := Int.lt_floor_add_one r
  have hn : r - ⌊r⌋ ≤ |(n : ℚ) - r| ∨ (⌊r⌋ : ℚ) + 1 - r ≤ |(n : ℚ) - r| := by
    rcases le_or_lt n ⌊r⌋ with h | h
    · left
      have h' : (n : ℚ) ≤ (⌊r⌋ : ℚ) := by exact_mod_cast h
      rw [abs_of_nonpos (by linarith)]
      linarith
    · right
      have h' : ((⌊r⌋ : ℤ) : ℚ) + 1 ≤ (n : ℚ) := by exact_mod_cast h
      rw [abs_of_nonneg (by linarith)]
      linarith
  unfold roundHalfEven
  split_ifs with h1 h2 h3
  · rw [abs_of_nonpos (by linarith)]
    rcases hn with h | h <;> linarith
  · push_cast
    rw [abs_of_nonneg (by linarith)]
    rcases hn with h | h <;> linarith
  · rw [abs_of_nonpos (by linarith)]
    rcases hn with h | h <;> linarith
  · push_cast
    rw [abs_of_nonneg (by linarith)]
    rcases hn with h | h <;> linarith

theorem roundHalfEven_intCast (n : ℤ) : roundHalfEven (n : ℚ) = n := by
  have h := roundHalfEven_nearest (n : ℚ) n
  simp only [sub_self, abs_zero] at h
  have h0 : (roundHalfEven (n : ℚ) : ℚ) - n = 0 := abs_eq_zero.mp (le_antisymm h (abs_nonneg _))
  have : (roundHalfEven (n : ℚ) : ℚ) = n := by linarith
  exact_mod_cast this

theorem roundHalfEven_eq_of_lt (r : ℚ) (n : ℤ) (h : |r - n| < 1 / 2) : roundHalfEven r = n := by
  have h1 := roundHalfEven_nearest r n
  rw [abs_sub_comm (n : ℚ) r] at h1
  have h2 : |(roundHalfEven r : ℚ) - n| < 1 := by
    calc |(roundHalfEven r : ℚ) - n| = |((roundHalfEven r : ℚ) - r) + (r - n)| := by ring_nf
      _ ≤ |(roundHalfEven r : ℚ) - r| + |r - n| := abs_add _ _
      _ < 1 := by linarith
  have h3 : |roundHalfEven r - n| < 1 := by exact_mod_cast h2
  have := Int.abs_lt_one_iff.mp h3
  omega

theorem two_zpow_pos (e : ℤ) : (0 : ℚ) < 2 ^ e := zpow_pos (by norm_num) e

theorem two_zpow_log_le (q : ℚ) (hq : q ≠ 0) : (2 : ℚ) ^ Int.log 2 |q| ≤ |q| := by
  have h := Int.zpow_log_le_self (b := 2) (r := |q|) (by norm_num) (abs_pos.mpr hq)
  simpa using h

theorem lt_two_zpow_log_succ (q : ℚ) : |q| < (2 : ℚ) ^ (Int.log 2 |q| + 1) := by
  have h := Int.lt_zpow_succ_log_self (b := 2) (by norm_num) |q|
  simpa using h

theorem log_two_eq (r : ℚ) (L : ℤ) (h1 : (2 : ℚ) ^ L ≤ r) (h2 : r < (2 : ℚ) ^ (L + 1)) :
    Int.log 2 r = L := by
  have hr : 0 < r := lt_of_lt_of_le (two_zpow_pos L) h1
  have a : L ≤ Int.log 2 r := by
    rw [← Int.zpow_le_iff_le_log (by norm_num) hr]
    simpa using h1
  have b : Int.log 2 r < L + 1 := by
    rw [← Int.lt_zpow_iff_log_lt (by norm_num) hr]
    simpa using h2
  omega

theorem ulpExp_ge (q : ℚ) : -1074 ≤ ulpExp q := le_max_right _ _

theorem ulpExp_ge_log (q : ℚ) : Int.log 2 |q| - 52 ≤ ulpExp q := le_max_left _ _

theorem round64_zero : round64 0 = 0 := by
  have h := roundHalfEven_intCast 0
  simp only [Int.cast_zero] at h
  simp [round64, h]

/-- A value `m * 2 ^ e` with `|m| < 2 ^ 53` and `e ≥ -1074` is a binary64 value. -/
theorem round64_dyadic (m e : ℤ) (he : -1074 ≤ e) (hm : |m| < 2 ^ 53) :
    round64 ((m : ℚ) * 2 ^ e) = (m : ℚ) * 2 ^ e := by
  by_cases hm0 : m = 0
  · subst hm0
    simp [round64_zero]
  have hmq : |(m : ℚ)| < 2 ^ 53 := by exact_mod_cast hm
  have hv0 : (m : ℚ) * 2 ^ e ≠ 0 :=
    mul_ne_zero (by exact_mod_cast hm0) (ne_of_gt (two_zpow_pos e))
  have hlt : |(m : ℚ) * 2 ^ e| < (2 : ℚ) ^ (53 + e) := by
    rw [abs_mul, abs_of_pos (two_zpow_pos e), zpow_add₀ (by norm_num : (2 : ℚ) ≠ 0)]
    have : (2 : ℚ) ^ (53 : ℤ) = 2 ^ 53 := by norm_num
    rw [this]
    exact mul_lt_mul_of_pos_right hmq (two_zpow_pos e)
  have hlog : Int.log 2 |(m : ℚ) * 2 ^ e| < 53 + e := by
    rw [← Int.lt_zpow_iff_log_lt (by norm_num) (abs_pos.mpr hv0)]
    simpa using hlt
  have hue : ulpExp ((m : ℚ) * 2 ^ e) ≤ e := by
    unfold ulpExp
    exact max_le (by omega) he
  obtain ⟨k, hk⟩ : ∃ k : ℕ, e = ulpExp ((m : ℚ) * 2 ^ e) + k :=
    ⟨(e - ulpExp ((m : ℚ) * 2 ^ e)).toNat, by omega⟩
  have hsplit : (2 : ℚ) ^ e = 2 ^ ulpExp ((m : ℚ) * 2 ^ e) * 2 ^ k := by
    conv_lhs => rw [hk]
    rw [zpow_add₀ (by norm_num : (2 : ℚ) ≠ 0), zpow_natCast]
  have hquot : (m : ℚ) * 2 ^ e / 2 ^ ulpExp ((m : ℚ) * 2 ^ e) = ((m * 2 ^ k : ℤ) : ℚ) := by
    have hpos := two_zpow_pos (ulpExp ((m : ℚ) * 2 ^ e))
    rw [div_eq_iff (ne_of_gt hpos)]
    conv_lhs => rw [hsplit]
    push_cast
    ring
  unfold round64
  rw [hquot, roundHalfEven_intCast]
  conv_rhs => rw [hsplit]
  push_cast
  ring

theorem round64_dyadic_le (m e : ℤ) (he : -1074 ≤ e) (hm : |m| ≤ 2 ^ 53) :
    round64 ((m : ℚ) * 2 ^ e) = (m : ℚ) * 2 ^ e := by
  rcases lt_or_eq_of_le hm with h | h
  · exact round64_dyadic m e he h
  · have h53 : (2 : ℚ) ^ (53 : ℤ) = 2 ^ 53 := by norm_num
    rcases abs_eq (by norm_num : (0 : ℤ) ≤ 2 ^ 53) |>.mp h with h1 | h1
    · have e1 : (m : ℚ) * 2 ^ e = ((1 : ℤ) : ℚ) * 2 ^ (e + 53) := by
        rw [h1, zpow_add₀ (by norm_num : (2 : ℚ) ≠ 0), h53]
        push_cast
        ring
      rw [e1]
      exact round64_dyadic 1 (e + 53) (by omega) (by norm_num)
    · have e1 : (m : ℚ) * 2 ^ e = ((-1 : ℤ) : ℚ) * 2 ^ (e + 53) := by
        rw [h1, zpow_add₀ (by norm_num : (2 : ℚ) ≠ 0), h53]
        push_cast
        ring
      rw [e1]
      exact round64_dyadic (-1) (e + 53) (by omega) (by norm_num)

theorem abs_div_ulp_lt (q : ℚ) : |q / 2 ^ ulpExp q| < 2 ^ 53 := by
  have hpos := two_zpow_pos (ulpExp q)
  rw [abs_div, abs_of_pos hpos, div_lt_iff₀ hpos]
  have h1 := lt_two_zpow_log_succ q
  have h2 : (2 : ℚ) ^ (Int.log 2 |q| + 1) ≤ 2 ^ (ulpExp q + 53) := by
    apply zpow_le_zpow_right₀ (by norm_num)
    have := ulpExp_ge_log q
    omega
  have h3 : (2 : ℚ) ^ (ulpExp q + 53) = 2 ^ 53 * 2 ^ ulpExp q := by
    rw [zpow_add₀ (by norm_num : (2 : ℚ) ≠ 0)]
    have h53 : (2 : ℚ) ^ (53 : ℤ) = 2 ^ 53 := by norm_num
    rw [h53]
    ring
  linarith

theorem abs_roundHalfEven_le (r : ℚ) (h : |r| < 2 ^ 53) : |roundHalfEven r| ≤ 2 ^ 53 := by
  obtain ⟨h1, h2⟩ := abs_lt.mp h
  norm_num at h1 h2
  have a := roundHalfEven_nearest r 9007199254740992
  have b := roundHalfEven_nearest r (-9007199254740992)
  push_cast at a b
  rw [abs_of_nonneg (by linarith : (0 : ℚ) ≤ 9007199254740992 - r)] at a
  rw [abs_of_nonpos (by linarith : -(9007199254740992 : ℚ) - r ≤ 0)] at b
  have a1 := (abs_le.mp a).2
  have b1 := (abs_le.mp b).1
  have hq : |(roundHalfEven r : ℚ)| ≤ 9007199254740992 := abs_le.mpr ⟨by linarith, by linarith⟩
  have hz : |roundHalfEven r| ≤ 9007199254740992 := by exact_mod_cast hq
  norm_num
  exact hz

/-- Rounding is idempotent: a rounded value is a binary64 value. -/
theorem round64_idem (q : ℚ) : round64 (round64 q) = round64 q := by
  unfold round64
  exact round64_dyadic_le _ _ (ulpExp_ge q) (abs_roundHalfEven_le _ (abs_div_ulp_lt q))

theorem round64_eq_mul (q : ℚ) :
    round64 q = (roundHalfEven (q / 2 ^ ulpExp q) : ℚ) * 2 ^ ulpExp q := rfl

/-- The rounded value is at least as close to `q` as any multiple of the unit in the
last place at `q`. -/
theorem round64_nearest_multiple (q : ℚ) (k : ℤ) :
    |round64 q - q| ≤ |(k : ℚ) * 2 ^ ulpExp q - q| := by
  have hu := two_zpow_pos (ulpExp q)
  have h := roundHalfEven_nearest (q / 2 ^ ulpExp q) k
  have e1 : round64 q - q
      = ((roundHalfEven (q / 2 ^ ulpExp q) : ℚ) - q / 2 ^ ulpExp q) * 2 ^ ulpExp q := by
    rw [round64_eq_mul]
    field_simp
  have e2 : (k : ℚ) * 2 ^ ulpExp q - q = ((k : ℚ) - q / 2 ^ ulpExp q) * 2 ^ ulpExp q := by
    field_simp
  rw [e1, e2, abs_mul, abs_mul, abs_of_pos hu]
  exact mul_le_mul_of_nonneg_right h hu.le

/-- Rounding to nearest: no binary64 value is closer to `q` than `round64 q`. -/
theorem round64_nearest (q f : ℚ) (hf : round64 f = f) : |round64 q - q| ≤ |f - q| := by
  by_cases hq0 : q = 0
  · subst hq0
    simp [round64_zero]
  rcases le_or_lt (ulpExp q) (ulpExp f) with hle | hlt
  · obtain ⟨j, hj⟩ : ∃ j : ℕ, ulpExp f = ulpExp q + j := ⟨(ulpExp f - ulpExp q).toNat, by omega⟩
    obtain ⟨m, hm⟩ : ∃ m : ℤ, f = (m : ℚ) * 2 ^ ulpExp f :=
      ⟨roundHalfEven (f / 2 ^ ulpExp f), by
        conv_lhs => rw [← hf]
        rfl⟩
    have hfm : f = ((m * 2 ^ j : ℤ) : ℚ) * 2 ^ ulpExp q := by
      conv_lhs => rw [hm, hj]
      rw [zpow_add₀ (by norm_num : (2 : ℚ) ≠ 0), zpow_natCast]
      push_cast
      ring
    have h := round64_nearest_multiple q (m * 2 ^ j)
    rw [← hfm] at h
    exact h
  · have hlogq : ulpExp q = Int.log 2 |q| - 52 := by
      have h1 := ulpExp_ge f
      unfold ulpExp at hlt ⊢
      apply max_eq_left
      by_contra hcon
      rw [max_eq_right (by omega)] at hlt
      unfold ulpExp at h1
      omega
    have hflt : |f| < (2 : ℚ) ^ Int.log 2 |q| := by
      have h1 := lt_two_zpow_log_succ f
      have h2 := ulpExp_ge_log f
      have h3 : (2 : ℚ) ^ (Int.log 2 |f| + 1) ≤ 2 ^ Int.log 2 |q| :=
        zpow_le_zpow_right₀ (by norm_num) (by omega)
      linarith
    have hqge := two_zpow_log_le q hq0
    have hpow : (2 : ℚ) ^ Int.log 2 |q| = 4503599627370496 * 2 ^ ulpExp q := by
      have : Int.log 2 |q| = 52 + ulpExp q := by omega
      conv_lhs => rw [this]
      rw [zpow_add₀ (by norm_num : (2 : ℚ) ≠ 0)]
      norm_num
    obtain ⟨hf1, hf2⟩ := abs_lt.mp hflt
    rcases lt_or_gt_of_ne hq0 with hneg | hpos
    · have h := round64_nearest_multiple q (-4503599627370496)
      push_cast at h
      have hqge' : (2 : ℚ) ^ Int.log 2 |q| ≤ -q := le_trans hqge (le_of_eq (abs_of_neg hneg))
      have e : -(4503599627370496 : ℚ) * 2 ^ ulpExp q = -(2 : ℚ) ^ Int.log 2 |q| := by
        rw [hpow]; ring
      have ha : |-(2 : ℚ) ^ Int.log 2 |q| - q| = -(2 : ℚ) ^ Int.log 2 |q| - q :=
        abs_of_nonneg (by linarith)
      have hb : |f - q| = f - q := abs_of_nonneg (by linarith)
      rw [e, ha] at h
      rw [hb]
      linarith
    · have h := round64_nearest_multiple q 4503599627370496
      push_cast at h
      have hqge' : (2 : ℚ) ^ Int.log 2 |q| ≤ q := le_trans hqge (le_of_eq (abs_of_pos hpos))
      have ha : |(2 : ℚ) ^ Int.log 2 |q| - q| = -((2 : ℚ) ^ Int.log 2 |q| - q) :=
        abs_of_nonpos (by linarith)
      have hb : |f - q| = -(f - q) := abs_of_nonpos (by linarith)
      rw [← hpow, ha] at h
      rw [hb]
      linarith

/-- Rounding is monotone. -/
theorem round64_mono (a b : ℚ) (hab : a ≤ b) : round64 a ≤ round64 b := by
  by_contra hcon
  have hlt : round64 b < round64 a := not_le.mp hcon
  have h1 := round64_nearest a (round64 b) (round64_idem b)
  have h2 := round64_nearest b (round64 a) (round64_idem a)
  have s1 := sq_le_sq.mpr h1
  have s2 := sq_le_sq.mpr h2
  have hne : a ≠ b := by
    intro h
    rw [h] at hlt
    exact lt_irrefl _ hlt
  have hab' : a < b := lt_of_le_of_ne hab hne
  nlinarith

theorem round64_nonneg (q : ℚ) (hq : 0 ≤ q) : 0 ≤ round64 q := by
  have h := round64_mono 0 q hq
  rwa [round64_zero] at h

theorem round64_nonpos (q : ℚ) (hq : q ≤ 0) : round64 q ≤ 0 := by
  have h := round64_mono q 0 hq
  rwa [round64_zero] at h

theorem abs_round64_le (q : ℚ) : |round64 q| ≤ 2 * |q| := by
  have h := round64_nearest q 0 round64_zero
  rw [zero_sub, abs_neg] at h
  calc |round64 q| = |(round64 q - q) + q| := by ring_nf
    _ ≤ |round64 q - q| + |q| := abs_add _ _
    _ ≤ 2 * |q| := by linarith

/-- Evaluation of the rounding away from ties. -/
theorem round64_eq (q : ℚ) (L n : ℤ) (hL : -1022 ≤ L) (h1 : (2 : ℚ) ^ L ≤ |q|)
    (h2 : |q| < (2 : ℚ) ^ (L + 1)) (hn : |q / 2 ^ (L - 52) - n| < 1 / 2) :
    round64 q = (n : ℚ) * 2 ^ (L - 52) := by
  have hlog := log_two_eq |q| L h1 h2
  have hue : ulpExp q = L - 52 := by
    unfold ulpExp
    rw [hlog]
    exact max_eq_left (by omega)
  rw [round64_eq_mul, hue, roundHalfEven_eq_of_lt _ n hn]

theorem roundHalfEven_tie (f : ℤ) :
    roundHalfEven ((f : ℚ) + 1 / 2) = if f % 2 = 0 then f else f + 1 := by
  have hfl : ⌊(f : ℚ) + 1 / 2⌋ = f := by
    rw [Int.floor_eq_iff]
    constructor <;> norm_num
  unfold roundHalfEven
  rw [hfl]
  norm_num

/-- Evaluation of the rounding at a tie. -/
theorem round64_tie (q : ℚ) (L f : ℤ) (hL : -1022 ≤ L) (h1 : (2 : ℚ) ^ L ≤ |q|)
    (h2 : |q| < (2 : ℚ) ^ (L + 1)) (hq : q / 2 ^ (L - 52) = (f : ℚ) + 1 / 2) :
    round64 q = ((if f % 2 = 0 then f else f + 1 : ℤ) : ℚ) * 2 ^ (L - 52) := by
  have hlog := log_two_eq |q| L h1 h2
  have hue : ulpExp q = L - 52 := by
    unfold ulpExp
    rw [hlog]
    exact max_eq_left (by omega)
  rw [round64_eq_mul, hue, hq, roundHalfEven_tie]

theorem round64_natCast (n : ℕ) (h : n < 2 ^ 53) : round64 (n : ℚ) = n := by
  have hz : |(n : ℤ)| < 2 ^ 53 := by
    rw [abs_of_nonneg (Int.natCast_nonneg n)]
    exact_mod_cast h
  have := round64_dyadic (n : ℤ) 0 (by norm_num) hz
  simpa using this

/-- A binary64 value below `1` is at most `1 - 2 ^ (-53)`. -/
theorem le_pred_one_of_round64 (r : ℚ) (hr : round64 r = r) (h1 : r < 1) :
    r ≤ 1 - 1 / 2 ^ 53 := by
  by_cases hhalf : r < 1 / 2
  · have : (1 : ℚ) / 2 ≤ 1 - 1 / 2 ^ 53 := by norm_num
    linarith
  · have hge : (1 : ℚ) / 2 ≤ r := not_lt.mp hhalf
    have habs : |r| = r := abs_of_nonneg (by linarith)
    have hlog : Int.log 2 |r| = -1 := by
      apply log_two_eq
      · rw [habs]; norm_num; linarith
      · rw [habs]; norm_num; linarith
    have hue : ulpExp r = -53 := by
      unfold ulpExp
      rw [hlog]
      norm_num
    obtain ⟨m, hm⟩ : ∃ m : ℤ, r = (m : ℚ) * 2 ^ (-53 : ℤ) :=
      ⟨roundHalfEven (r / 2 ^ (-53 : ℤ)), by
        conv_lhs => rw [← hr, round64_eq_mul, hue]⟩
    have hmlt : (m : ℚ) < 2 ^ 53 := by
      rw [hm] at h1
      norm_num at h1 ⊢
      linarith
    have hmz : m < 2 ^ 53 := by exact_mod_cast hmlt
    have hmle : (m : ℚ) ≤ 2 ^ 53 - 1 := by
      have : m ≤ 2 ^ 53 - 1 := by omega
      exact_mod_cast this
    rw [hm]
    norm_num at hmle ⊢
    linarith

/-- The product of a natural number `w < 2 ^ 53` by the largest binary64 value
below `1` rounds to a value below `w`. -/
theorem round64_pred_mul_lt (w : ℕ) (hw0 : 0 < w) (hw : w < 2 ^ 53) :
    round64 ((1 - 1 / 2 ^ 53) * (w : ℚ)) < w := by
  have hk1 : 2 ^ Nat.log 2 w ≤ w := Nat.pow_log_le_self 2 (by omega)
  have hk2 : w < 2 ^ (Nat.log 2 w + 1) := Nat.lt_pow_succ_log_self (by norm_num) w
  have hk : Nat.log 2 w ≤ 52 := by
    by_contra hcon
    have h53 : 53 ≤ Nat.log 2 w := by omega
    have : 2 ^ 53 ≤ 2 ^ Nat.log 2 w := Nat.pow_le_pow_right (by norm_num) h53
    omega
  obtain ⟨j, hj⟩ : ∃ j : ℕ, Nat.log 2 w + j = 52 := ⟨52 - Nat.log 2 w, by omega⟩
  generalize Nat.log 2 w = k at hk1 hk2 hk hj
  have hA : (0 : ℚ) < 2 ^ k := by positivity
  have hB : (0 : ℚ) < 2 ^ j := by positivity
  have hAB : (2 : ℚ) ^ k * 2 ^ j = 2 ^ 52 := by rw [← pow_add, hj]
  have hwq1 : (2 : ℚ) ^ k ≤ w := by exact_mod_cast hk1
  have hwq2 : (w : ℚ) < 2 * 2 ^ k := by
    have : (w : ℚ) < 2 ^ (k + 1) := by exact_mod_cast hk2
    rw [pow_succ] at this
    linarith
  have hwpos : (0 : ℚ) < w := by exact_mod_cast hw0
  have hinv : (1 : ℚ) / 2 ^ j = 2 ^ k / 2 ^ 52 := by
    rw [← hAB]
    field_simp
  rcases eq_or_lt_of_le hwq1 with heq | hlt
  · -- `w` is a power of two: the product is a binary64 value
    have hq : (1 - 1 / 2 ^ 53) * (w : ℚ)
        = ((2 ^ 53 - 1 : ℤ) : ℚ) * 2 ^ (-(j : ℤ) - 1) := by
      rw [← heq, zpow_sub₀ (by norm_num : (2 : ℚ) ≠ 0), zpow_neg, zpow_natCast, ← one_div, hinv]
      push_cast
      norm_num
      ring
    rw [hq, round64_dyadic _ _ (by omega) (by norm_num), ← hq]
    have : (0 : ℚ) < 1 / 2 ^ 53 * w := by positivity
    linarith
  · -- otherwise the binary64 value just below `w` is closer to the product than `w`
    have hf : w - (1 : ℚ) / 2 ^ j = ((w * 2 ^ j - 1 : ℤ) : ℚ) * 2 ^ (-(j : ℤ)) := by
      rw [zpow_neg, zpow_natCast]
      push_cast
      field_simp
    have hm : |((w : ℤ) * 2 ^ j - 1)| < 2 ^ 53 := by
      have h1 : (1 : ℤ) ≤ w * 2 ^ j := by
        have : 1 ≤ w * 2 ^ j := Nat.one_le_iff_ne_zero.mpr (by positivity)
        exact_mod_cast this
      have h2 : (w : ℤ) * 2 ^ j < 2 ^ 53 := by
        have : w * 2 ^ j < 2 ^ (k + 1) * 2 ^ j :=
          Nat.mul_lt_mul_of_pos_right hk2 (by positivity)
        rw [← pow_add, show k + 1 + j = 53 by omega] at this
        exact_mod_cast this
      rw [abs_of_nonneg (by omega)]
      omega
    have hfix : round64 (w - (1 : ℚ) / 2 ^ j) = w - (1 : ℚ) / 2 ^ j := by
      rw [hf]
      exact round64_dyadic _ _ (by omega) hm
    have hn := round64_nearest ((1 - 1 / 2 ^ 53) * (w : ℚ)) _ hfix
    have hdist : |(w - (1 : ℚ) / 2 ^ j) - (1 - 1 / 2 ^ 53) * (w : ℚ)|
        = (1 - 1 / 2 ^ 53) * (w : ℚ) - (w - (1 : ℚ) / 2 ^ j) := by
      rw [abs_of_nonpos]
      · ring
      · rw [hinv]
        norm_num
        linarith
    rw [hdist, hinv] at hn
    have hup := (abs_le.mp hn).2
    norm_num at hup
    linarith

/-- A binary64 value below `1` other than `1 - 2 ^ (-53)` is at most `1 - 2 ^ (-52)`. -/
theorem le_pred_pred_one_of_round64 (r : ℚ) (hr : round64 r = r) (h1 : r < 1)
    (hne : r ≠ 1 - 1 / 2 ^ 53) : r ≤ 1 - 1 / 2 ^ 52 := by
  by_cases hhalf : r < 1 / 2
  · have : (1 : ℚ) / 2 ≤ 1 - 1 / 2 ^ 52 := by norm_num
    linarith
  · have hge : (1 : ℚ) / 2 ≤ r := not_lt.mp hhalf
    have habs : |r| = r := abs_of_nonneg (by linarith)
    have hlog : Int.log 2 |r| = -1 := by
      apply log_two_eq
      · rw [habs]; norm_num; linarith
      · rw [habs]; norm_num; linarith
    have hue : ulpExp r = -53 := by
      unfold ulpExp
      rw [hlog]
      norm_num
    obtain ⟨m, hm⟩ : ∃ m : ℤ, r = (m : ℚ) * 2 ^ (-53 : ℤ) :=
      ⟨roundHalfEven (r / 2 ^ (-53 : ℤ)), by
        conv_lhs => rw [← hr, round64_eq_mul, hue]⟩
    have hmlt : (m : ℚ) < 2 ^ 53 := by
      rw [hm] at h1
      norm_num at h1 ⊢
      linarith
    have hmz : m < 2 ^ 53 := by exact_mod_cast hmlt
    have hmne : m ≠ 2 ^ 53 - 1 := by
      intro h
      apply hne
      rw [hm, h]
      norm_num
    have hmle : (m : ℚ) ≤ 2 ^ 53 - 2 := by
      have : m ≤ 2 ^ 53 - 2 := by omega
      exact_mod_cast this
    rw [hm]
    norm_num at hmle ⊢
    linarith

/-! ## Creation in binary64 (C9) -/

theorem round64_fix (q : ℚ) (m e : ℤ) (hq : q = (m : ℚ) * 2 ^ e) (he : -1074 ≤ e)
    (hm : |m| < 2 ^ 53) : round64 q = q := by
  rw [hq]
  exact round64_dyadic m e he hm

theorem round64_predOne : round64 predOne = predOne := by
  have h : predOne = ((2 ^ 53 - 1 : ℤ) : ℚ) * 2 ^ (-53 : ℤ) := by
    norm_num [predOne]
  rw [h]
  exact round64_dyadic _ _ (by norm_num) (by norm_num)

/-- With the third draw equal to `predOne`, `size` is `3`: the product
`predOne * 2 = 2 - 2 ^ (-52)` is exact and `2 - 2 ^ (-52) + 1` is half-way
between the binary64 values `3 - 2 ^ (-51)` and `3`, of which `3` is the even one. -/
theorem new64_size_predOne : (Particle.new64 100 100 0 0 predOne 0).size = 3 := by
  have e1 : predOne * 2 = ((2 ^ 53 - 1 : ℤ) : ℚ) * 2 ^ (-52 : ℤ) := by
    norm_num [predOne]
  have h1 : round64 (predOne * 2) = 2 - 1 / 2 ^ 52 := by
    rw [e1, round64_dyadic _ _ (by norm_num) (by norm_num)]
    norm_num
  have h2 : round64 (2 - 1 / 2 ^ 52 + 1) = 3 := by
    rw [round64_tie _ 1 (3 * 2 ^ 51 - 1) (by norm_num) (by norm_num [abs_of_pos])
      (by norm_num [abs_of_pos]) (by norm_num)]
    norm_num
  show round64 (round64 (predOne * 2) + 1) = 3
  rw [h1, h2]

/-- C9, as stated, fails in binary64: `predOne = 1 - 2 ^ (-53)` is a binary64 value
in `[0, 1)`, and with it as third draw the constructor gives `size = 3`, so
`size < 3` does not hold. -/
theorem C9_counterexample :
    round64 predOne = predOne ∧ 0 ≤ predOne ∧ predOne < 1 ∧
    (Particle.new64 100 100 0 0 predOne 0).size = 3 ∧
    ¬ (Particle.new64 100 100 0 0 predOne 0).size < 3 := by
  refine ⟨round64_predOne, by norm_num [predOne], by norm_num [predOne],
    new64_size_predOne, ?_⟩
  rw [new64_size_predOne]
  norm_num

/-- C9 (amended): on a canvas of width `w` and height `h` with `0 < w, h < 2 ^ 32`,
for four random draws that are binary64 values in `[0, 1)`, the particle built
in binary64 has `0 ≤ x < w`, `0 ≤ y < h`, `size` in `[1, 3]`, `density` in
`[1, 31)` and its base position equal to its position; `size` is below `3`
unless the third draw is `1 - 2 ^ (-53)`. -/
theorem C9_creation_ranges_binary64 (w h : ℕ) (r1 r2 r3 r4 : ℚ) (hw : 0 < w) (hh : 0 < h)
    (hw32 : w < 2 ^ 32) (hh32 : h < 2 ^ 32)
    (h1 : round64 r1 = r1 ∧ 0 ≤ r1 ∧ r1 < 1) (h2 : round64 r2 = r2 ∧ 0 ≤ r2 ∧ r2 < 1)
    (h3 : round64 r3 = r3 ∧ 0 ≤ r3 ∧ r3 < 1) (h4 : round64 r4 = r4 ∧ 0 ≤ r4 ∧ r4 < 1) :
    ∃ x y : ℚ,
      (Particle.new64 w h r1 r2 r3 r4).x = JSNum.fin x ∧
      (Particle.new64 w h r1 r2 r3 r4).y = JSNum.fin y ∧
      0 ≤ x ∧ x < w ∧ 0 ≤ y ∧ y < h ∧
      1 ≤ (Particle.new64 w h r1 r2 r3 r4).size ∧
      (Particle.new64 w h r1 r2 r3 r4).size ≤ 3 ∧
      (r3 ≠ predOne → (Particle.new64 w h r1 r2 r3 r4).size < 3) ∧
      1 ≤ (Particle.new64 w h r1 r2 r3 r4).density ∧
      (Particle.new64 w h r1 r2 r3 r4).density < 31 ∧
      (Particle.new64 w h r1 r2 r3 r4).baseX = x ∧
      (Particle.new64 w h r1 r2 r3 r4).baseY = y := by
  have hw' : (0 : ℚ) < w := by exact_mod_cast hw
  have hh' : (0 : ℚ) < h := by exact_mod_cast hh
  have r1n : round64 1 = 1 := by simpa using round64_natCast 1 (by norm_num)
  have r2n : round64 2 = 2 := by simpa using round64_natCast 2 (by norm_num)
  have r3n : round64 3 = 3 := by simpa using round64_natCast 3 (by norm_num)
  -- positions
  have below : ∀ (n : ℕ) (r : ℚ), 0 < n → n < 2 ^ 32 → round64 r = r → 0 ≤ r → r < 1 →
      0 ≤ round64 (r * n) ∧ round64 (r * n) < n := by
    intro n r hn hn32 hr hr0 hr1
    have hn' : (0 : ℚ) < n := by exact_mod_cast hn
    refine ⟨round64_nonneg _ (mul_nonneg hr0 hn'.le), ?_⟩
    have hle : r * n ≤ (1 - 1 / 2 ^ 53) * (n : ℚ) :=
      mul_le_mul_of_nonneg_right (le_pred_one_of_round64 r hr hr1) hn'.le
    have hlt := round64_pred_mul_lt n hn (lt_trans hn32 (by norm_num))
    exact lt_of_le_of_lt (round64_mono _ _ hle) hlt
  obtain ⟨hx0, hx1⟩ := below w r1 hw hw32 h1.1 h1.2.1 h1.2.2
  obtain ⟨hy0, hy1⟩ := below h r2 hh hh32 h2.1 h2.2.1 h2.2.2
  -- size
  have hs0 : 0 ≤ round64 (r3 * 2) := round64_nonneg _ (by linarith [h3.2.1])
  have hs2 : round64 (r3 * 2) ≤ 2 := by
    have := round64_mono (r3 * 2) 2 (by linarith [h3.2.2])
    rwa [r2n] at this
  have hsize1 : 1 ≤ round64 (round64 (r3 * 2) + 1) := by
    have := round64_mono 1 (round64 (r3 * 2) + 1) (by linarith)
    rwa [r1n] at this
  have hsize3 : round64 (round64 (r3 * 2) + 1) ≤ 3 := by
    have := round64_mono (round64 (r3 * 2) + 1) 3 (by linarith)
    rwa [r3n] at this
  have hsizelt : r3 ≠ predOne → round64 (round64 (r3 * 2) + 1) < 3 := by
    intro hne
    have hr3 : r3 ≤ 1 - 1 / 2 ^ 52 := le_pred_pred_one_of_round64 r3 h3.1 h3.2.2 hne
    have ea : (2 : ℚ) - 1 / 2 ^ 51 = ((2 ^ 52 - 1 : ℤ) : ℚ) * 2 ^ (-51 : ℤ) := by norm_num
    have eb : (3 : ℚ) - 1 / 2 ^ 51 = ((3 * 2 ^ 51 - 1 : ℤ) : ℚ) * 2 ^ (-51 : ℤ) := by norm_num
    have fa : round64 (2 - 1 / 2 ^ 51) = 2 - 1 / 2 ^ 51 := by
      rw [ea]
      exact round64_dyadic _ _ (by norm_num) (by norm_num)
    have fb : round64 (3 - 1 / 2 ^ 51) = 3 - 1 / 2 ^ 51 := by
      rw [eb]
      exact round64_dyadic _ _ (by norm_num) (by norm_num)
    have ha : round64 (r3 * 2) ≤ 2 - 1 / 2 ^ 51 := by
      have := round64_mono (r3 * 2) (2 - 1 / 2 ^ 51) (by norm_num at hr3 ⊢; linarith)
      rwa [fa] at this
    have hb : round64 (round64 (r3 * 2) + 1) ≤ 3 - 1 / 2 ^ 51 := by
      have := round64_mono (round64 (r3 * 2) + 1) (3 - 1 / 2 ^ 51) (by linarith)
      rwa [fb] at this
    have : (3 : ℚ) - 1 / 2 ^ 51 < 3 := by norm_num
    linarith
  -- density
  have hd0 : 0 ≤ round64 (r4 * 30) := round64_nonneg _ (by linarith [h4.2.1])
  have hdens1 : 1 ≤ round64 (round64 (r4 * 30) + 1) := by
    have := round64_mono 1 (round64 (r4 * 30) + 1) (by linarith)
    rwa [r1n] at this
  have hdens31 : round64 (round64 (r4 * 30) + 1) < 31 := by
    have hr4 : r4 ≤ 1 - 1 / 2 ^ 53 := le_pred_one_of_round64 r4 h4.1 h4.2.2
    have ev : round64 (30 - 30 / 2 ^ 53) = 30 - 1 / 2 ^ 48 := by
      rw [round64_eq _ 4 (30 * 2 ^ 48 - 1) (by norm_num) (by norm_num [abs_of_pos])
        (by norm_num [abs_of_pos]) (by norm_num [abs_of_pos])]
      norm_num
    have eb : (31 : ℚ) - 1 / 2 ^ 48 = ((31 * 2 ^ 48 - 1 : ℤ) : ℚ) * 2 ^ (-48 : ℤ) := by norm_num
    have fb : round64 (31 - 1 / 2 ^ 48) = 31 - 1 / 2 ^ 48 := by
      rw [eb]
      exact round64_dyadic _ _ (by norm_num) (by norm_num)
    have ha : round64 (r4 * 30) ≤ 30 - 1 / 2 ^ 48 := by
      have := round64_mono (r4 * 30) (30 - 30 / 2 ^ 53) (by norm_num at hr4 ⊢; linarith)
      rwa [ev] at this
    have hb : round64 (round64 (r4 * 30) + 1) ≤ 31 - 1 / 2 ^ 48 := by
      have := round64_mono (round64 (r4 * 30) + 1) (31 - 1 / 2 ^ 48) (by linarith)
      rwa [fb] at this
    have : (31 : ℚ) - 1 / 2 ^ 48 < 31 := by norm_num
    linarith
  exact ⟨round64 (r1 * w), round64 (r2 * h), rfl, rfl, hx0, hx1, hy0, hy1,
    hsize1, hsize3, hsizelt, hdens1, hdens31, rfl, rfl⟩

/-- Witness of C9 (amended): a 100 x 100 canvas and the draws `1/4`, `1/2`, `3/4`, `1/8`. -/
theorem C9_creation_ranges_binary64_witness :
    (round64 (1 / 4) = 1 / 4 ∧ round64 (1 / 2) = 1 / 2 ∧ round64 (3 / 4) = 3 / 4 ∧
      round64 (1 / 8) = 1 / 8) ∧
    ∃ x y : ℚ,
      (Particle.new64 100 100 (1 / 4) (1 / 2) (3 / 4) (1 / 8)).x = JSNum.fin x ∧
      (Particle.new64 100 100 (1 / 4) (1 / 2) (3 / 4) (1 / 8)).y = JSNum.fin y ∧
      0 ≤ x ∧ x < ((100 : ℕ) : ℚ) ∧ 0 ≤ y ∧ y < ((100 : ℕ) : ℚ) ∧
      1 ≤ (Particle.new64 100 100 (1 / 4) (1 / 2) (3 / 4) (1 / 8)).size ∧
      (Particle.new64 100 100 (1 / 4) (1 / 2) (3 / 4) (1 / 8)).size ≤ 3 ∧
      ((3 / 4 : ℚ) ≠ predOne →
        (Particle.new64 100 100 (1 / 4) (1 / 2) (3 / 4) (1 / 8)).size < 3) ∧
      1 ≤ (Particle.new64 100 100 (1 / 4) (1 / 2) (3 / 4) (1 / 8)).density ∧
      (Particle.new64 100 100 (1 / 4) (1 / 2) (3 / 4) (1 / 8)).density < 31 ∧
      (Particle.new64 100 100 (1 / 4) (1 / 2) (3 / 4) (1 / 8)).baseX = x ∧
      (Particle.new64 100 100 (1 / 4) (1 / 2) (3 / 4) (1 / 8)).baseY = y :=
  have f1 : round64 (1 / 4) = 1 / 4 :=
    round64_fix _ 1 (-2) (by norm_num) (by norm_num) (by norm_num)
  have f2 : round64 (1 / 2) = 1 / 2 :=
    round64_fix _ 1 (-1) (by norm_num) (by norm_num) (by norm_num)
  have f3 : round64 (3 / 4) = 3 / 4 :=
    round64_fix _ 3 (-2) (by norm_num) (by norm_num) (by norm_num)
  have f4 : round64 (1 / 8) = 1 / 8 :=
    round64_fix _ 1 (-3) (by norm_num) (by norm_num) (by norm_num)
  ⟨⟨f1, f2, f3, f4⟩,
    C9_creation_ranges_binary64 100 100 (1 / 4) (1 / 2) (3 / 4) (1 / 8) (by norm_num)
      (by norm_num) (by norm_num) (by norm_num)
      ⟨f1, by norm_num, by norm_num⟩ ⟨f2, by norm_num, by norm_num⟩
      ⟨f3, by norm_num, by norm_num⟩ ⟨f4, by norm_num, by norm_num⟩⟩

/-! ## Binary64 operators on finite values -/

theorem JSNum.ofExact_fin (q : ℚ) (h : |q| ≤ 2 ^ 1022) :
    JSNum.ofExact q = JSNum.fin (round64 q) := by
  have h1 := abs_round64_le q
  have h2 : ¬ (2 : ℚ) ^ 1024 ≤ |round64 q| := by
    have : (2 : ℚ) ^ 1024 = 4 * 2 ^ 1022 := by norm_num
    rw [this]
    have hp : (0 : ℚ) < 2 ^ 1022 := by positivity
    intro hcon
    linarith
  unfold JSNum.ofExact
  rw [if_neg h2]

theorem JSNum.sub64_fin (a b : ℚ) (h : |a - b| ≤ 2 ^ 1022) :
    JSNum.sub64 (.fin a) (.fin b) = .fin (round64 (a - b)) := by
  simp only [JSNum.sub64, JSNum.sub_fin, JSNum.rounded]
  exact JSNum.ofExact_fin _ h

theorem JSNum.mul64_fin (a b : ℚ) (h : |a * b| ≤ 2 ^ 1022) :
    JSNum.mul64 (.fin a) (.fin b) = .fin (round64 (a * b)) := by
  simp only [JSNum.mul64, JSNum.mul_fin, JSNum.rounded]
  exact JSNum.ofExact_fin _ h

theorem JSNum.div64_fin (a b : ℚ) (hb : b ≠ 0) (h : |a / b| ≤ 2 ^ 1022) :
    JSNum.div64 (.fin a) (.fin b) = .fin (round64 (a / b)) := by
  simp only [JSNum.div64, JSNum.div_fin a b hb, JSNum.rounded]
  exact JSNum.ofExact_fin _ h

theorem JSNum.add64_fin (a b : ℚ) (h : |a + b| ≤ 2 ^ 1022) :
    JSNum.add64 (.fin a) (.fin b) = .fin (round64 (a + b)) := by
  simp only [JSNum.add64, JSNum.add_fin, JSNum.rounded]
  exact JSNum.ofExact_fin _ h

/-- Evaluation of `sqrt64` at a value `q` in `[2 ^ L, 2 ^ (L + 1))` whose scaling
is the natural number `N`, with integer square root `s`. -/
theorem sqrt64_eval (q : ℚ) (L : ℤ) (N s : ℕ) (h1 : (2 : ℚ) ^ L ≤ q)
    (h2 : q < (2 : ℚ) ^ (L + 1)) (hN : q * 2 ^ (2 * (64 - L / 2)) = (N : ℚ))
    (hs1 : s * s ≤ N) (hs2 : N < (s + 1) * (s + 1)) :
    sqrt64 q = round64 (((s : ℚ) + (if (s : ℚ) * (s : ℚ) = (N : ℚ) then 0 else 1 / 2))
      / 2 ^ (64 - L / 2)) := by
  have hq : 0 < q := lt_of_lt_of_le (two_zpow_pos L) h1
  have hlog := log_two_eq q L h1 h2
  have hs : Nat.sqrt N = s := (Nat.eq_sqrt.mpr ⟨hs1, hs2⟩).symm
  unfold sqrt64
  rw [if_neg (not_le.mpr hq)]
  simp only [hlog, hN, Nat.floor_natCast, hs]

/-! ## Relaxation in binary64 (C5) -/

/-- One relaxation assignment `x -= (x - b) / 10` in binary64, from a binary64
value `x`: the result stays on the side of `b` where `x` was, between `b`
(excluded) and `x` (included). -/
theorem relax_step64 (x b : ℚ) (hx : round64 x = x) :
    (x = b → round64 (x - round64 (round64 (x - b) / 10)) = b) ∧
    (b < x → b < round64 (x - round64 (round64 (x - b) / 10)) ∧
      round64 (x - round64 (round64 (x - b) / 10)) ≤ x) ∧
    (x < b → x ≤ round64 (x - round64 (round64 (x - b) / 10)) ∧
      round64 (x - round64 (round64 (x - b) / 10)) < b) := by
  have ha := abs_round64_le (x - b)
  have ht := abs_round64_le (round64 (x - b) / 10)
  have hn := round64_nearest (x - round64 (round64 (x - b) / 10)) x hx
  have hn' : |round64 (x - round64 (round64 (x - b) / 10)) - (x - round64 (round64 (x - b) / 10))|
      ≤ |round64 (round64 (x - b) / 10)| := by
    have e : x - (x - round64 (round64 (x - b) / 10)) = round64 (round64 (x - b) / 10) := by ring
    rwa [e] at hn
  rw [abs_div, abs_of_pos (by norm_num : (0 : ℚ) < 10)] at ht
  obtain ⟨hn1, hn2⟩ := abs_le.mp hn'
  refine ⟨?_, ?_, ?_⟩
  · intro h
    subst h
    simp [round64_zero, hx]
  · intro h
    have hδ : |x - b| = x - b := abs_of_pos (by linarith)
    have a0 : 0 ≤ round64 (x - b) := round64_nonneg _ (by linarith)
    have t0 : 0 ≤ round64 (round64 (x - b) / 10) := round64_nonneg _ (by linarith)
    rw [hδ, abs_of_nonneg a0] at ha
    rw [abs_of_nonneg a0, abs_of_nonneg t0] at ht
    rw [abs_of_nonneg t0] at hn1 hn2
    constructor <;> linarith
  · intro h
    have hδ : |x - b| = -(x - b) := abs_of_neg (by linarith)
    have a0 : round64 (x - b) ≤ 0 := round64_nonpos _ (by linarith)
    have t0 : round64 (round64 (x - b) / 10) ≤ 0 := round64_nonpos _ (by linarith)
    rw [hδ, abs_of_nonpos a0] at ha
    rw [abs_of_nonpos a0, abs_of_nonpos t0] at ht
    rw [abs_of_nonpos t0] at hn1 hn2
    constructor <;> linarith

/-- The relaxation branch of `update` in binary64 for a particle at a finite
position that is not near the overflow threshold. -/
theorem Particle.mouseParallax64_far (sqrt : ℚ → ℚ) (mouse : Mouse) (x y d : ℚ) (p : Particle)
    (hx : p.x = JSNum.fin x) (hy : p.y = JSNum.fin y)
    (hx64 : round64 x = x) (hy64 : round64 y = y)
    (bx : |x| ≤ 2 ^ 1000) (by' : |y| ≤ 2 ^ 1000)
    (bbx : |p.baseX| ≤ 2 ^ 1000) (bby : |p.baseY| ≤ 2 ^ 1000)
    (hdist : Particle.distance64 sqrt mouse p = JSNum.fin d) (hd : 300 ≤ d) :
    Particle.mouseParallax64 sqrt mouse p =
      { p with x := JSNum.fin (round64 (x - round64 (round64 (x - p.baseX) / 10))),
               y := JSNum.fin (round64 (y - round64 (round64 (y - p.baseY) / 10))) } := by
  have hp : (0 : ℚ) < 2 ^ 1000 := by positivity
  have e22 : (2 : ℚ) ^ 1022 = 4194304 * 2 ^ 1000 := by norm_num
  have step : ∀ a b : ℚ, |a| ≤ 2 ^ 1000 → |b| ≤ 2 ^ 1000 →
      JSNum.sub64 (.fin a) (JSNum.div64 (JSNum.sub64 (.fin a) (.fin b)) (.fin 10))
        = .fin (round64 (a - round64 (round64 (a - b) / 10))) := by
    intro a b ha hb
    have h1 : |a - b| ≤ 2 * 2 ^ 1000 := by
      calc |a - b| ≤ |a| + |b| := abs_sub a b
        _ ≤ 2 * 2 ^ 1000 := by linarith
    have h2 : |round64 (a - b)| ≤ 4 * 2 ^ 1000 := by
      have := abs_round64_le (a - b)
      linarith
    have h3 : |round64 (a - b) / 10| ≤ 4 * 2 ^ 1000 := by
      rw [abs_div, abs_of_pos (by norm_num : (0 : ℚ) < 10)]
      have : 0 ≤ |round64 (a - b)| := abs_nonneg _
      linarith
    have h4 : |round64 (round64 (a - b) / 10)| ≤ 8 * 2 ^ 1000 := by
      have := abs_round64_le (round64 (a - b) / 10)
      linarith
    have h5 : |a - round64 (round64 (a - b) / 10)| ≤ 9 * 2 ^ 1000 := by
      calc |a - round64 (round64 (a - b) / 10)| ≤ |a| + |round64 (round64 (a - b) / 10)| :=
            abs_sub _ _
        _ ≤ 9 * 2 ^ 1000 := by linarith
    rw [JSNum.sub64_fin a b (by rw [e22]; linarith),
      JSNum.div64_fin _ 10 (by norm_num) (by rw [e22]; linarith),
      JSNum.sub64_fin _ _ (by rw [e22]; linarith)]
  have sx := step x p.baseX bx bbx
  have sy := step y p.baseY by' bby
  rcases p with ⟨px, py, size, baseX, baseY, density⟩
  simp only at hx hy sx sy bbx bby
  subst hx hy
  unfold Particle.mouseParallax64
  simp only [hdist, JSNum.lt_fin, not_lt.mpr hd, decide_False, JSNum.strictNe_fin]
  by_cases h1 : x = baseX <;> by_cases h2 : y = baseY
  · subst h1 h2
    simp [round64_zero, hx64, hy64]
  · subst h1
    simp [h2, sy, round64_zero, hx64]
  · subst h2
    simp [h1, sx, round64_zero, hy64]
  · simp [h1, h2, sx, sy]

theorem sqrt64_160000 : sqrt64 160000 = 400 := by
  rw [sqrt64_eval 160000 17 (160000 * 2 ^ 112) (400 * 2 ^ 56) (by norm_num) (by norm_num)
    (by norm_num) (by norm_num) (by norm_num)]
  norm_num
  exact round64_fix _ 400 0 (by norm_num) (by norm_num) (by norm_num)

/-- The value of `distance` for `nearRestParticle` and the pointer at `(3, 404)`. -/
theorem nearRest_distance64 :
    Particle.distance64 sqrt64 ⟨some 3, some 404⟩ nearRestParticle = JSNum.fin 400 := by
  have v1 : round64 (3 - (3 + 1 / 2 ^ 49)) = -(1 / 2 ^ 49) := by
    have e : (3 : ℚ) - (3 + 1 / 2 ^ 49) = -(1 / 2 ^ 49) := by norm_num
    rw [e]
    exact round64_fix _ (-1) (-49) (by norm_num) (by norm_num) (by norm_num)
  have v2 : round64 (404 - 4) = 400 := by
    have e : (404 : ℚ) - 4 = 400 := by norm_num
    rw [e]
    exact round64_fix _ 400 0 (by norm_num) (by norm_num) (by norm_num)
  have v3 : round64 (-(1 / 2 ^ 49) * -(1 / 2 ^ 49)) = 1 / 2 ^ 98 := by
    have e : (-(1 / 2 ^ 49) * -(1 / 2 ^ 49) : ℚ) = 1 / 2 ^ 98 := by norm_num
    rw [e]
    exact round64_fix _ 1 (-98) (by norm_num) (by norm_num) (by norm_num)
  have v4 : round64 (400 * 400) = 160000 := by
    have e : (400 * 400 : ℚ) = 160000 := by norm_num
    rw [e]
    exact round64_fix _ 160000 0 (by norm_num) (by norm_num) (by norm_num)
  have v5 : round64 (1 / 2 ^ 98 + 160000) = 160000 := by
    rw [round64_eq _ 17 (160000 * 2 ^ 35) (by norm_num) (by norm_num [abs_of_pos])
      (by norm_num [abs_of_pos]) (by norm_num [abs_of_pos])]
    norm_num
  unfold Particle.distance64 nearRestParticle
  simp only [toNumber]
  rw [JSNum.sub64_fin _ _ (abs_le.mpr ⟨by norm_num, by norm_num⟩), v1,
    JSNum.sub64_fin _ _ (abs_le.mpr ⟨by norm_num, by norm_num⟩), v2,
    JSNum.mul64_fin _ _ (abs_le.mpr ⟨by norm_num, by norm_num⟩), v3,
    JSNum.mul64_fin _ _ (abs_le.mpr ⟨by norm_num, by norm_num⟩), v4,
    JSNum.add64_fin _ _ (abs_le.mpr ⟨by norm_num, by norm_num⟩), v5,
    JSNum.mathSqrt_fin _ _ (by norm_num), sqrt64_160000]

/-- The relaxation assignment leaves `3 + 2 ^ (-49)` unchanged when the base is `3`:
the tenth of the offset is `0.4` units in the last place and is lost in the
subtraction. -/
theorem relax_nearRest :
    round64 (3 + 1 / 2 ^ 49 - round64 (round64 (3 + 1 / 2 ^ 49 - 3) / 10)) = 3 + 1 / 2 ^ 49 := by
  have v1 : round64 (3 + 1 / 2 ^ 49 - 3) = 1 / 2 ^ 49 := by
    have e : (3 + 1 / 2 ^ 49 - 3 : ℚ) = 1 / 2 ^ 49 := by norm_num
    rw [e]
    exact round64_fix _ 1 (-49) (by norm_num) (by norm_num) (by norm_num)
  have v2 : round64 (1 / 2 ^ 49 / 10) = 7205759403792794 / 2 ^ 105 := by
    rw [round64_eq _ (-53) 7205759403792794 (by norm_num) (by norm_num [abs_of_pos])
      (by norm_num [abs_of_pos]) (by norm_num [abs_of_pos])]
    norm_num
  have v3 : round64 (3 + 1 / 2 ^ 49 - 7205759403792794 / 2 ^ 105) = 3 + 1 / 2 ^ 49 := by
    rw [round64_eq _ 1 (3 * 2 ^ 51 + 4) (by norm_num) (by norm_num [abs_of_pos])
      (by norm_num [abs_of_pos]) (by norm_num [abs_of_pos])]
    norm_num
  rw [v1, v2, v3]

theorem nearRest_update_x :
    (Particle.mouseParallax64 sqrt64 ⟨some 3, some 404⟩ nearRestParticle).x
      = JSNum.fin (3 + 1 / 2 ^ 49) := by
  have hx64 : round64 (3 + 1 / 2 ^ 49) = 3 + 1 / 2 ^ 49 :=
    round64_fix _ (3 * 2 ^ 49 + 1) (-49) (by norm_num) (by norm_num) (by norm_num)
  have hy64 : round64 4 = 4 :=
    round64_fix _ 4 0 (by norm_num) (by norm_num) (by norm_num)
  have h := Particle.mouseParallax64_far sqrt64 ⟨some 3, some 404⟩ (3 + 1 / 2 ^ 49) 4 400
    nearRestParticle rfl rfl hx64 hy64
    (abs_le.mpr ⟨by norm_num, by norm_num⟩) (abs_le.mpr ⟨by norm_num, by norm_num⟩)
    (abs_le.mpr ⟨by norm_num [nearRestParticle], by norm_num [nearRestParticle]⟩)
    (abs_le.mpr ⟨by norm_num [nearRestParticle], by norm_num [nearRestParticle]⟩)
    nearRest_distance64 (by norm_num)
  rw [h]
  show JSNum.fin (round64 (3 + 1 / 2 ^ 49 - round64 (round64 (3 + 1 / 2 ^ 49 - 3) / 10)))
    = JSNum.fin (3 + 1 / 2 ^ 49)
  rw [relax_nearRest]

/-- C5, as stated, fails in binary64: for `nearRestParticle`, at `x = 3 + 2 ^ (-49)`
with `baseX = 3`, and the pointer at `(3, 404)`, `distance` is `400`, the
relaxation branch runs and leaves `x` where it was: the offset `2 ^ (-49)` is not
multiplied by `9/10` and does not decrease. -/
theorem C5_counterexample :
    Particle.distance64 sqrt64 ⟨some 3, some 404⟩ nearRestParticle = JSNum.fin 400 ∧
    nearRestParticle.x = JSNum.fin (3 + 1 / 2 ^ 49) ∧
    (3 + 1 / 2 ^ 49 : ℚ) - nearRestParticle.baseX ≠ 0 ∧
    (Particle.mouseParallax64 sqrt64 ⟨some 3, some 404⟩ nearRestParticle).x
      = JSNum.fin (3 + 1 / 2 ^ 49) ∧
    ¬ ∃ x' : ℚ,
      (Particle.mouseParallax64 sqrt64 ⟨some 3, some 404⟩ nearRestParticle).x = JSNum.fin x' ∧
      |x' - nearRestParticle.baseX| < |(3 + 1 / 2 ^ 49 : ℚ) - nearRestParticle.baseX| := by
  refine ⟨nearRest_distance64, rfl, by norm_num [nearRestParticle], nearRest_update_x, ?_⟩
  rintro ⟨x', hx', hlt⟩
  rw [nearRest_update_x] at hx'
  injection hx' with hx'
  subst hx'
  exact lt_irrefl _ hlt

/-- C5 (amended): in binary64, for a particle at a finite position `(x, y)` of
binary64 values (all coordinates below `2 ^ 1000` in absolute value) whose
distance to a set pointer, as `update` computes it, is at least `300`, the
pointer step of `update` (before scroll drift and wraparound) replaces `x` by the
rounded value of `x - (x - baseX) / 10`, each operation rounded, and `y`
likewise. On each axis the new coordinate lies between the base (excluded) and
the old coordinate (included): the offset from the base keeps its sign, never
grows in absolute value, stays zero when zero and never becomes zero from a
non-zero value; it need not shrink. -/
theorem C5_relaxation_binary64 (sqrt : ℚ → ℚ) (mx my x y d : ℚ) (p : Particle)
    (hx : p.x = JSNum.fin x) (hy : p.y = JSNum.fin y)
    (hx64 : round64 x = x) (hy64 : round64 y = y)
    (bx : |x| ≤ 2 ^ 1000) (by' : |y| ≤ 2 ^ 1000)
    (bbx : |p.baseX| ≤ 2 ^ 1000) (bby : |p.baseY| ≤ 2 ^ 1000)
    (hdist : Particle.distance64 sqrt ⟨some mx, some my⟩ p = JSNum.fin d) (hd : 300 ≤ d) :
    ∃ x' y' : ℚ,
      x' = round64 (x - round64 (round64 (x - p.baseX) / 10)) ∧
      y' = round64 (y - round64 (round64 (y - p.baseY) / 10)) ∧
      (Particle.mouseParallax64 sqrt ⟨some mx, some my⟩ p).x = JSNum.fin x' ∧
      (Particle.mouseParallax64 sqrt ⟨some mx, some my⟩ p).y = JSNum.fin y' ∧
      (x = p.baseX → x' = p.baseX) ∧
      (p.baseX < x → p.baseX < x' ∧ x' ≤ x) ∧
      (x < p.baseX → x ≤ x' ∧ x' < p.baseX) ∧
      (y = p.baseY → y' = p.baseY) ∧
      (p.baseY < y → p.baseY < y' ∧ y' ≤ y) ∧
      (y < p.baseY → y ≤ y' ∧ y' < p.baseY) ∧
      |x' - p.baseX| ≤ |x - p.baseX| ∧ |y' - p.baseY| ≤ |y - p.baseY| := by
  have hfar := Particle.mouseParallax64_far sqrt ⟨some mx, some my⟩ x y d p hx hy hx64 hy64
    bx by' bbx bby hdist hd
  obtain ⟨x1, x2, x3⟩ := relax_step64 x p.baseX hx64
  obtain ⟨y1, y2, y3⟩ := relax_step64 y p.baseY hy64
  have habs : ∀ a b c : ℚ, (a = b → c = b) → (b < a → b < c ∧ c ≤ a) →
      (a < b → a ≤ c ∧ c < b) → |c - b| ≤ |a - b| := by
    intro a b c h1 h2 h3
    rcases lt_trichotomy a b with h | h | h
    · obtain ⟨u, v⟩ := h3 h
      rw [abs_of_neg (by linarith), abs_of_neg (by linarith)]
      linarith
    · rw [h1 h, h]
    · obtain ⟨u, v⟩ := h2 h
      rw [abs_of_pos (by linarith), abs_of_pos (by linarith)]
      linarith
  exact ⟨_, _, rfl, rfl, by rw [hfar], by rw [hfar], x1, x2, x3, y1, y2, y3,
    habs _ _ _ x1 x2 x3, habs _ _ _ y1 y2 y3⟩

/-- Witness of C5 (amended): `nearRestParticle` with the pointer at `(3, 404)`. -/
theorem C5_relaxation_binary64_witness :
    Particle.distance64 sqrt64 ⟨some 3, some 404⟩ nearRestParticle = JSNum.fin 400 ∧
    ∃ x' y' : ℚ,
      x' = round64 (3 + 1 / 2 ^ 49 - round64 (round64 (3 + 1 / 2 ^ 49 - nearRestParticle.baseX) / 10)) ∧
      y' = round64 (4 - round64 (round64 (4 - nearRestParticle.baseY) / 10)) ∧
      (Particle.mouseParallax64 sqrt64 ⟨some 3, some 404⟩ nearRestParticle).x = JSNum.fin x' ∧
      (Particle.mouseParallax64 sqrt64 ⟨some 3, some 404⟩ nearRestParticle).y = JSNum.fin y' ∧
      ((3 + 1 / 2 ^ 49 : ℚ) = nearRestParticle.baseX → x' = nearRestParticle.baseX) ∧
      (nearRestParticle.baseX < 3 + 1 / 2 ^ 49 →
        nearRestParticle.baseX < x' ∧ x' ≤ 3 + 1 / 2 ^ 49) ∧
      (3 + 1 / 2 ^ 49 < nearRestParticle.baseX →
        3 + 1 / 2 ^ 49 ≤ x' ∧ x' < nearRestParticle.baseX) ∧
      ((4 : ℚ) = nearRestParticle.baseY → y' = nearRestParticle.baseY) ∧
      (nearRestParticle.baseY < 4 → nearRestParticle.baseY < y' ∧ y' ≤ 4) ∧
      (4 < nearRestParticle.baseY → 4 ≤ y' ∧ y' < nearRestParticle.baseY) ∧
      |x' - nearRestParticle.baseX| ≤ |(3 + 1 / 2 ^ 49 : ℚ) - nearRestParticle.baseX| ∧
      |y' - nearRestParticle.baseY| ≤ |(4 : ℚ) - nearRestParticle.baseY| :=
  ⟨nearRest_distance64,
    C5_relaxation_binary64 sqrt64 3 404 (3 + 1 / 2 ^ 49) 4 400 nearRestParticle rfl rfl
      (round64_fix _ (3 * 2 ^ 49 + 1) (-49) (by norm_num) (by norm_num) (by norm_num))
      (round64_fix _ 4 0 (by norm_num) (by norm_num) (by norm_num))
      (abs_le.mpr ⟨by norm_num, by norm_num⟩) (abs_le.mpr ⟨by norm_num, by norm_num⟩)
      (abs_le.mpr ⟨by norm_num [nearRestParticle], by norm_num [nearRestParticle]⟩)
      (abs_le.mpr ⟨by norm_num [nearRestParticle], by norm_num [nearRestParticle]⟩)
      nearRest_distance64 (by norm_num)⟩

/-! ## Repulsion in binary64 (C6) -/

/-- One coordinate of the repulsion branch of `update` in binary64: the operations
of lines 164-175 on finite values `m` (pointer), `a` (particle), `d` (distance)
and `ρ` (density), none of which overflows. -/
theorem repel_axis64 (m a d ρ : ℚ) (ba : |a| ≤ 2 ^ 100) (bm : |m| ≤ 2 ^ 100)
    (h0 : 0 < d) (h300 : d < 300) (hρ0 : 0 < ρ) (hρ : ρ ≤ 2 ^ 100)
    (hleg : |round64 (m - a)| ≤ 2 * d) :
    JSNum.sub64 (.fin a)
        (JSNum.mul64
          (JSNum.mul64 (JSNum.div64 (JSNum.sub64 (.fin m) (.fin a)) (.fin d))
            (JSNum.div64 (JSNum.sub64 (.fin 300) (.fin d)) (.fin 300)))
          (.fin ρ))
      = .fin (round64 (a - round64 (round64 (round64 (round64 (m - a) / d)
          * round64 (round64 (300 - d) / 300)) * ρ))) := by
  have hp : (0 : ℚ) < 2 ^ 100 := by positivity
  have e22 : (2 : ℚ) ^ 1022 = 2 ^ 922 * 2 ^ 100 := by norm_num
  have hbig : (1000 : ℚ) ≤ 2 ^ 922 := by norm_num
  have big : ∀ q : ℚ, |q| ≤ 1000 * 2 ^ 100 → |q| ≤ 2 ^ 1022 := by
    intro q hq
    rw [e22]
    nlinarith
  have one_le : (1 : ℚ) ≤ 2 ^ 100 := by norm_num
  have b1 : |m - a| ≤ 2 * 2 ^ 100 := by
    calc |m - a| ≤ |m| + |a| := abs_sub m a
      _ ≤ 2 * 2 ^ 100 := by linarith
  have b2 : |round64 (m - a) / d| ≤ 2 := by
    rw [abs_div, abs_of_pos h0, div_le_iff₀ h0]
    exact hleg
  have b3 : |round64 (round64 (m - a) / d)| ≤ 4 := by
    have := abs_round64_le (round64 (m - a) / d)
    linarith
  have b4 : |(300 : ℚ) - d| ≤ 300 := abs_le.mpr ⟨by linarith, by linarith⟩
  have b5 : |round64 (300 - d)| ≤ 600 := by
    have := abs_round64_le (300 - d)
    linarith
  have b6 : |round64 (300 - d) / 300| ≤ 2 := by
    rw [abs_div, abs_of_pos (by norm_num : (0 : ℚ) < 300), div_le_iff₀ (by norm_num)]
    linarith
  have b7 : |round64 (round64 (300 - d) / 300)| ≤ 4 := by
    have := abs_round64_le (round64 (300 - d) / 300)
    linarith
  have b8 : |round64 (round64 (m - a) / d) * round64 (round64 (300 - d) / 300)| ≤ 16 := by
    rw [abs_mul]
    calc |round64 (round64 (m - a) / d)| * |round64 (round64 (300 - d) / 300)|
        ≤ 4 * 4 := mul_le_mul b3 b7 (abs_nonneg _) (by norm_num)
      _ = 16 := by norm_num
  have b9 : |round64 (round64 (round64 (m - a) / d) * round64 (round64 (300 - d) / 300))|
      ≤ 32 := by
    have := abs_round64_le
      (round64 (round64 (m - a) / d) * round64 (round64 (300 - d) / 300))
    linarith
  have b10 : |round64 (round64 (round64 (m - a) / d) * round64 (round64 (300 - d) / 300)) * ρ|
      ≤ 32 * 2 ^ 100 := by
    rw [abs_mul, abs_of_pos hρ0]
    exact mul_le_mul b9 hρ hρ0.le (by norm_num)
  have b11 : |round64 (round64 (round64 (round64 (m - a) / d)
      * round64 (round64 (300 - d) / 300)) * ρ)| ≤ 64 * 2 ^ 100 := by
    have := abs_round64_le
      (round64 (round64 (round64 (m - a) / d) * round64 (round64 (300 - d) / 300)) * ρ)
    linarith
  have b12 : |a - round64 (round64 (round64 (round64 (m - a) / d)
      * round64 (round64 (300 - d) / 300)) * ρ)| ≤ 65 * 2 ^ 100 := by
    calc |a - round64 (round64 (round64 (round64 (m - a) / d)
          * round64 (round64 (300 - d) / 300)) * ρ)|
        ≤ |a| + |round64 (round64 (round64 (round64 (m - a) / d)
          * round64 (round64 (300 - d) / 300)) * ρ)| := abs_sub _ _
      _ ≤ 65 * 2 ^ 100 := by linarith
  rw [JSNum.sub64_fin m a (big _ (by linarith)),
    JSNum.div64_fin _ d (ne_of_gt h0) (big _ (by linarith)),
    JSNum.sub64_fin 300 d (big _ (by linarith)),
    JSNum.div64_fin _ 300 (by norm_num) (big _ (by linarith)),
    JSNum.mul64_fin _ _ (big _ (by linarith)),
    JSNum.mul64_fin _ _ (big _ (by linarith)),
    JSNum.sub64_fin _ _ (big _ (by linarith))]

/-- The repulsion branch of `update` in binary64 for a particle at a finite
position and a set pointer. -/
theorem Particle.mouseParallax64_near (sqrt : ℚ → ℚ) (mx my x y d : ℚ) (p : Particle)
    (hx : p.x = JSNum.fin x) (hy : p.y = JSNum.fin y)
    (bx : |x| ≤ 2 ^ 100) (by' : |y| ≤ 2 ^ 100) (bmx : |mx| ≤ 2 ^ 100) (bmy : |my| ≤ 2 ^ 100)
    (hdens : 0 < p.density) (bdens : p.density ≤ 2 ^ 100)
    (hdist : Particle.distance64 sqrt ⟨some mx, some my⟩ p = JSNum.fin d)
    (h0 : 0 < d) (h300 : d < 300)
    (hlegx : |round64 (mx - x)| ≤ 2 * d) (hlegy : |round64 (my - y)| ≤ 2 * d) :
    Particle.mouseParallax64 sqrt ⟨some mx, some my⟩ p =
      { p with
        x := JSNum.fin (round64 (x - round64 (round64 (round64 (round64 (mx - x) / d)
          * round64 (round64 (300 - d) / 300)) * p.density))),
        y := JSNum.fin (round64 (y - round64 (round64 (round64 (round64 (my - y) / d)
          * round64 (round64 (300 - d) / 300)) * p.density))) } := by
  have ex := repel_axis64 mx x d p.density bx bmx h0 h300 hdens bdens hlegx
  have ey := repel_axis64 my y d p.density by' bmy h0 h300 hdens bdens hlegy
  rcases p with ⟨px, py, size, baseX, baseY, density⟩
  simp only at hx hy ex ey
  subst hx hy
  unfold Particle.mouseParallax64
  simp only [hdist, JSNum.lt_fin, h300, decide_True, if_true, toNumber, ex, ey]

/-- Signs in one coordinate of the repulsion: the subtracted amount has the sign of
`m - a` (or is zero) and the coordinate, a binary64 value, moves away from `m`
or stays. -/
theorem repel_axis64_away (m a d ρ : ℚ) (ha64 : round64 a = a) (h0 : 0 < d) (h300 : d < 300)
    (hρ0 : 0 < ρ) :
    (a ≤ m → 0 ≤ round64 (round64 (round64 (round64 (m - a) / d)
        * round64 (round64 (300 - d) / 300)) * ρ) ∧
      round64 (a - round64 (round64 (round64 (round64 (m - a) / d)
        * round64 (round64 (300 - d) / 300)) * ρ)) ≤ a) ∧
    (m ≤ a → round64 (round64 (round64 (round64 (m - a) / d)
        * round64 (round64 (300 - d) / 300)) * ρ) ≤ 0 ∧
      a ≤ round64 (a - round64 (round64 (round64 (round64 (m - a) / d)
        * round64 (round64 (300 - d) / 300)) * ρ))) := by
  have hf : 0 ≤ round64 (round64 (300 - d) / 300) :=
    round64_nonneg _ (div_nonneg (round64_nonneg _ (by linarith)) (by norm_num))
  constructor
  · intro h
    have h1 : 0 ≤ round64 (round64 (m - a) / d) :=
      round64_nonneg _ (div_nonneg (round64_nonneg _ (by linarith)) h0.le)
    have h2 : 0 ≤ round64 (round64 (round64 (m - a) / d) * round64 (round64 (300 - d) / 300)) :=
      round64_nonneg _ (mul_nonneg h1 hf)
    have h3 : 0 ≤ round64 (round64 (round64 (round64 (m - a) / d)
        * round64 (round64 (300 - d) / 300)) * ρ) :=
      round64_nonneg _ (mul_nonneg h2 hρ0.le)
    refine ⟨h3, ?_⟩
    have := round64_mono (a - round64 (round64 (round64 (round64 (m - a) / d)
        * round64 (round64 (300 - d) / 300)) * ρ)) a (by linarith)
    rwa [ha64] at this
  · intro h
    have h1 : round64 (round64 (m - a) / d) ≤ 0 :=
      round64_nonpos _ (div_nonpos_of_nonpos_of_nonneg (round64_nonpos _ (by linarith)) h0.le)
    have h2 : round64 (round64 (round64 (m - a) / d) * round64 (round64 (300 - d) / 300)) ≤ 0 :=
      round64_nonpos _ (mul_nonpos_of_nonpos_of_nonneg h1 hf)
    have h3 : round64 (round64 (round64 (round64 (m - a) / d)
        * round64 (round64 (300 - d) / 300)) * ρ) ≤ 0 :=
      round64_nonpos _ (mul_nonpos_of_nonpos_of_nonneg h2 hρ0.le)
    refine ⟨h3, ?_⟩
    have := round64_mono a (a - round64 (round64 (round64 (round64 (m - a) / d)
        * round64 (round64 (300 - d) / 300)) * ρ)) (by linarith)
    rwa [ha64] at this

/-- C6 (amended): in binary64, for a particle at a finite position `(x, y)` of
binary64 values, of positive density, and a pointer at `(mx, my)` (all below
`2 ^ 100` in absolute value) whose distance `d`, as `update` computes it,
satisfies `0 < d < 300` (and is at least half of each rounded leg `mx - x`,
`my - y`, as a square root is), the pointer step of `update` (before scroll drift
and wraparound) subtracts from each coordinate the rounded product
`(dx / d) * force * density` with `force = (300 - d) / 300` in `[0, 1]`, each
operation rounded. The subtracted amount has the sign of `dx` (of `dy`), so each
coordinate moves away from the pointer or stays where it is, and the distance to
the pointer does not decrease; it need not increase. The amount does not
decrease in absolute value when the density grows, and `force` does not
increase when `d` grows. -/
theorem C6_repulsion_binary64 (sqrt : ℚ → ℚ) (mx my x y d : ℚ) (p : Particle)
    (hx : p.x = JSNum.fin x) (hy : p.y = JSNum.fin y)
    (hx64 : round64 x = x) (hy64 : round64 y = y)
    (bx : |x| ≤ 2 ^ 100) (by' : |y| ≤ 2 ^ 100) (bmx : |mx| ≤ 2 ^ 100) (bmy : |my| ≤ 2 ^ 100)
    (hdens : 0 < p.density) (bdens : p.density ≤ 2 ^ 100)
    (hdist : Particle.distance64 sqrt ⟨some mx, some my⟩ p = JSNum.fin d)
    (h0 : 0 < d) (h300 : d < 300)
    (hlegx : |round64 (mx - x)| ≤ 2 * d) (hlegy : |round64 (my - y)| ≤ 2 * d) :
    ∃ force cX cY dirX dirY x' y' : ℚ,
      force = round64 (round64 (300 - d) / 300) ∧
      cX = round64 (round64 (round64 (mx - x) / d) * force) ∧
      cY = round64 (round64 (round64 (my - y) / d) * force) ∧
      dirX = round64 (cX * p.density) ∧
      dirY = round64 (cY * p.density) ∧
      x' = round64 (x - dirX) ∧
      y' = round64 (y - dirY) ∧
      (Particle.mouseParallax64 sqrt ⟨some mx, some my⟩ p).x = JSNum.fin x' ∧
      (Particle.mouseParallax64 sqrt ⟨some mx, some my⟩ p).y = JSNum.fin y' ∧
      0 ≤ force ∧ force ≤ 1 ∧
      (x ≤ mx → 0 ≤ dirX ∧ x' ≤ x) ∧ (mx ≤ x → dirX ≤ 0 ∧ x ≤ x') ∧
      (y ≤ my → 0 ≤ dirY ∧ y' ≤ y) ∧ (my ≤ y → dirY ≤ 0 ∧ y ≤ y') ∧
      (mx - x) ^ 2 + (my - y) ^ 2 ≤ (mx - x') ^ 2 + (my - y') ^ 2 ∧
      (∀ ρ : ℚ, p.density ≤ ρ →
        |dirX| ≤ |round64 (cX * ρ)| ∧ |dirY| ≤ |round64 (cY * ρ)|) ∧
      (∀ d' : ℚ, d ≤ d' → round64 (round64 (300 - d') / 300) ≤ force) := by
  have hnear := Particle.mouseParallax64_near sqrt mx my x y d p hx hy bx by' bmx bmy
    hdens bdens hdist h0 h300 hlegx hlegy
  obtain ⟨ax1, ax2⟩ := repel_axis64_away mx x d p.density hx64 h0 h300 hdens
  obtain ⟨ay1, ay2⟩ := repel_axis64_away my y d p.density hy64 h0 h300 hdens
  have r300 : round64 300 = 300 :=
    round64_fix _ 300 0 (by norm_num) (by norm_num) (by norm_num)
  have r1 : round64 1 = 1 := round64_fix _ 1 0 (by norm_num) (by norm_num) (by norm_num)
  have hf0 : 0 ≤ round64 (round64 (300 - d) / 300) :=
    round64_nonneg _ (div_nonneg (round64_nonneg _ (by linarith)) (by norm_num))
  have hf1 : round64 (round64 (300 - d) / 300) ≤ 1 := by
    have h1 : round64 (300 - d) ≤ 300 := by
      have := round64_mono (300 - d) 300 (by linarith)
      rwa [r300] at this
    have h2 := round64_mono (round64 (300 - d) / 300) 1
      (by rw [div_le_iff₀ (by norm_num)]; linarith)
    rwa [r1] at h2
  have hsq : ∀ m a a' : ℚ, (a ≤ m → a' ≤ a) → (m ≤ a → a ≤ a') →
      (m - a) ^ 2 ≤ (m - a') ^ 2 := by
    intro m a a' h1 h2
    rcases le_total a m with h | h
    · have := h1 h
      nlinarith
    · have := h2 h
      nlinarith
  have hmonoabs : ∀ c ρ ρ' : ℚ, 0 < ρ → ρ ≤ ρ' → |round64 (c * ρ)| ≤ |round64 (c * ρ')| := by
    intro c ρ ρ' hρ hle
    rcases le_total 0 c with hc | hc
    · have a1 : 0 ≤ round64 (c * ρ) := round64_nonneg _ (mul_nonneg hc hρ.le)
      have a2 : 0 ≤ round64 (c * ρ') := round64_nonneg _ (mul_nonneg hc (by linarith))
      rw [abs_of_nonneg a1, abs_of_nonneg a2]
      exact round64_mono _ _ (mul_le_mul_of_nonneg_left hle hc)
    · have a1 : round64 (c * ρ) ≤ 0 :=
        round64_nonpos _ (mul_nonpos_of_nonpos_of_nonneg hc hρ.le)
      have a2 : round64 (c * ρ') ≤ 0 :=
        round64_nonpos _ (mul_nonpos_of_nonpos_of_nonneg hc (by linarith))
      rw [abs_of_nonpos a1, abs_of_nonpos a2]
      have := round64_mono _ _ (mul_le_mul_of_nonpos_left hle hc)
      linarith
  refine ⟨_, _, _, _, _, _, _, rfl, rfl, rfl, rfl, rfl, rfl, rfl, by rw [hnear], by rw [hnear],
    hf0, hf1, ax1, ax2, ay1, ay2, ?_, ?_, ?_⟩
  · have hxx := hsq mx x _ (fun h => (ax1 h).2) (fun h => (ax2 h).2)
    have hyy := hsq my y _ (fun h => (ay1 h).2) (fun h => (ay2 h).2)
    linarith
  · intro ρ hρ
    exact ⟨hmonoabs _ _ _ hdens hρ, hmonoabs _ _ _ hdens hρ⟩
  · intro d' hd'
    apply round64_mono
    exact div_le_div_of_nonneg_right (round64_mono _ _ (by linarith)) (by norm_num)

theorem sqrt64_rim : sqrt64 (90000 - 1 / 2 ^ 35) = 300 - 1 / 2 ^ 44 := by
  rw [sqrt64_eval (90000 - 1 / 2 ^ 35) 16 467306717268134335452017217801161801728
    21617278211378377304 (by norm_num) (by norm_num) (by norm_num) (by norm_num) (by norm_num)]
  norm_num
  rw [round64_eq _ 8 (300 * 2 ^ 44 - 1) (by norm_num) (by norm_num [abs_of_pos])
    (by norm_num [abs_of_pos]) (by norm_num [abs_of_pos])]
  norm_num

theorem sqrt64_two : sqrt64 2 = 6369051672525773 / 2 ^ 52 := by
  rw [sqrt64_eval 2 1 (2 ^ 129) 26087635650665564424 (by norm_num) (by norm_num)
    (by norm_num) (by norm_num) (by norm_num)]
  norm_num
  rw [round64_eq _ 0 6369051672525773 (by norm_num) (by norm_num [abs_of_pos])
    (by norm_num [abs_of_pos]) (by norm_num [abs_of_pos])]
  norm_num

/-- The value of `distance` for `rimParticle` and the pointer at `(200, 1)`. -/
theorem rim_distance64 :
    Particle.distance64 sqrt64 ⟨some 200, some 1⟩ rimParticle
      = JSNum.fin (300 - 1 / 2 ^ 44) := by
  have v1 : round64 (200 - (500 - 1 / 2 ^ 44)) = -(300 - 1 / 2 ^ 44) := by
    have e : (200 - (500 - 1 / 2 ^ 44) : ℚ) = -(300 - 1 / 2 ^ 44) := by norm_num
    rw [e]
    exact round64_fix _ (-(300 * 2 ^ 44 - 1)) (-44) (by norm_num) (by norm_num) (by norm_num)
  have v2 : round64 (1 - 1) = 0 := by
    have e : (1 - 1 : ℚ) = 0 := by norm_num
    rw [e, round64_zero]
  have v3 : round64 (-(300 - 1 / 2 ^ 44) * -(300 - 1 / 2 ^ 44)) = 90000 - 1 / 2 ^ 35 := by
    rw [round64_eq _ 16 (90000 * 2 ^ 36 - 2) (by norm_num) (by norm_num [abs_of_pos])
      (by norm_num [abs_of_pos]) (by norm_num [abs_of_pos])]
    norm_num
  have v4 : round64 (0 * 0) = 0 := by
    have e : (0 * 0 : ℚ) = 0 := by norm_num
    rw [e, round64_zero]
  have v5 : round64 (90000 - 1 / 2 ^ 35 + 0) = 90000 - 1 / 2 ^ 35 := by
    have e : (90000 - 1 / 2 ^ 35 + 0 : ℚ) = 90000 - 1 / 2 ^ 35 := by norm_num
    rw [e]
    exact round64_fix _ (90000 * 2 ^ 35 - 1) (-35) (by norm_num) (by norm_num) (by norm_num)
  unfold Particle.distance64 rimParticle
  simp only [toNumber]
  rw [JSNum.sub64_fin _ _ (abs_le.mpr ⟨by norm_num, by norm_num⟩), v1,
    JSNum.sub64_fin _ _ (abs_le.mpr ⟨by norm_num, by norm_num⟩), v2,
    JSNum.mul64_fin _ _ (abs_le.mpr ⟨by norm_num, by norm_num⟩), v3,
    JSNum.mul64_fin _ _ (abs_le.mpr ⟨by norm_num, by norm_num⟩), v4,
    JSNum.add64_fin _ _ (abs_le.mpr ⟨by norm_num, by norm_num⟩), v5,
    JSNum.mathSqrt_fin _ _ (by norm_num), sqrt64_rim]

/-- The repulsion assignments leave `rimParticle` in place: the push on `x` is about
`0.1` units in the last place of `x` and is lost in the subtraction, the push on
`y` is zero. -/
theorem rim_update :
    (Particle.mouseParallax64 sqrt64 ⟨some 200, some 1⟩ rimParticle).x
      = JSNum.fin (500 - 1 / 2 ^ 44) ∧
    (Particle.mouseParallax64 sqrt64 ⟨some 200, some 1⟩ rimParticle).y = JSNum.fin 1 := by
  have v1 : round64 (200 - (500 - 1 / 2 ^ 44)) = -(300 - 1 / 2 ^ 44) := by
    have e : (200 - (500 - 1 / 2 ^ 44) : ℚ) = -(300 - 1 / 2 ^ 44) := by norm_num
    rw [e]
    exact round64_fix _ (-(300 * 2 ^ 44 - 1)) (-44) (by norm_num) (by norm_num) (by norm_num)
  have v2 : round64 (-(300 - 1 / 2 ^ 44) / (300 - 1 / 2 ^ 44)) = -1 := by
    have e : (-(300 - 1 / 2 ^ 44) / (300 - 1 / 2 ^ 44) : ℚ) = -1 := by norm_num
    rw [e]
    exact round64_fix _ (-1) 0 (by norm_num) (by norm_num) (by norm_num)
  have v3 : round64 (300 - (300 - 1 / 2 ^ 44)) = 1 / 2 ^ 44 := by
    have e : (300 - (300 - 1 / 2 ^ 44) : ℚ) = 1 / 2 ^ 44 := by norm_num
    rw [e]
    exact round64_fix _ 1 (-44) (by norm_num) (by norm_num) (by norm_num)
  have v4 : round64 (1 / 2 ^ 44 / 300) = 7686143364045647 / 2 ^ 105 := by
    rw [round64_eq _ (-53) 7686143364045647 (by norm_num) (by norm_num [abs_of_pos])
      (by norm_num [abs_of_pos]) (by norm_num [abs_of_pos])]
    norm_num
  have v5 : round64 (-1 * (7686143364045647 / 2 ^ 105)) = -(7686143364045647 / 2 ^ 105) := by
    have e : (-1 * (7686143364045647 / 2 ^ 105) : ℚ) = -(7686143364045647 / 2 ^ 105) := by
      norm_num
    rw [e]
    exact round64_fix _ (-7686143364045647) (-105) (by norm_num) (by norm_num) (by norm_num)
  have v6 : round64 (-(7686143364045647 / 2 ^ 105) * 30) = -(7205759403792794 / 2 ^ 100) := by
    rw [round64_eq _ (-48) (-7205759403792794) (by norm_num) (by norm_num [abs_of_neg])
      (by norm_num [abs_of_neg]) (by norm_num [abs_of_pos, abs_of_neg])]
    norm_num
  have v7 : round64 (500 - 1 / 2 ^ 44 - -(7205759403792794 / 2 ^ 100)) = 500 - 1 / 2 ^ 44 := by
    rw [round64_eq _ 8 (500 * 2 ^ 44 - 1) (by norm_num) (by norm_num [abs_of_pos])
      (by norm_num [abs_of_pos]) (by norm_num [abs_of_pos])]
    norm_num
  have w1 : round64 (1 - 1) = 0 := by
    have e : (1 - 1 : ℚ) = 0 := by norm_num
    rw [e, round64_zero]
  have w2 : round64 (0 / (300 - 1 / 2 ^ 44)) = 0 := by
    rw [zero_div, round64_zero]
  have w3 : round64 (0 * (7686143364045647 / 2 ^ 105)) = 0 := by
    rw [zero_mul, round64_zero]
  have w4 : round64 (0 * 30) = 0 := by
    rw [zero_mul, round64_zero]
  have w5 : round64 (1 - 0) = 1 := by
    have e : (1 - 0 : ℚ) = 1 := by norm_num
    rw [e]
    exact round64_fix _ 1 0 (by norm_num) (by norm_num) (by norm_num)
  have hd0 : (0 : ℚ) < 300 - 1 / 2 ^ 44 := by norm_num
  have h := Particle.mouseParallax64_near sqrt64 200 1 (500 - 1 / 2 ^ 44) 1 (300 - 1 / 2 ^ 44)
    rimParticle rfl rfl
    (abs_le.mpr ⟨by norm_num, by norm_num⟩) (abs_le.mpr ⟨by norm_num, by norm_num⟩)
    (abs_le.mpr ⟨by norm_num, by norm_num⟩) (abs_le.mpr ⟨by norm_num, by norm_num⟩)
    (by norm_num [rimParticle]) (by norm_num [rimParticle]) rim_distance64 hd0 (by norm_num)
    (by rw [v1]; norm_num [abs_of_neg]) (by rw [w1]; norm_num)
  rw [h]
  simp only [rimParticle]
  rw [v1, v2, v3, v4, v5, v6, v7, w1, w2, w3, w4, w5]
  exact ⟨rfl, rfl⟩

/-- C6, as stated, fails in binary64: for `rimParticle`, at `(500 - 2 ^ (-44), 1)`
with density `30`, and the pointer at `(200, 1)`, `distance` is
`d = 300 - 2 ^ (-44)` with `0 < d < 300`, the repulsion branch runs and leaves the
particle in place: it is not displaced by `density * (300 - d) / 300` and its
squared distance to the pointer is not above `d * d`. -/
theorem C6_counterexample :
    Particle.distance64 sqrt64 ⟨some 200, some 1⟩ rimParticle
      = JSNum.fin (300 - 1 / 2 ^ 44) ∧
    (0 : ℚ) < 300 - 1 / 2 ^ 44 ∧ (300 - 1 / 2 ^ 44 : ℚ) < 300 ∧
    (0 : ℚ) < rimParticle.density * (300 - (300 - 1 / 2 ^ 44)) / 300 ∧
    (Particle.mouseParallax64 sqrt64 ⟨some 200, some 1⟩ rimParticle).x = rimParticle.x ∧
    (Particle.mouseParallax64 sqrt64 ⟨some 200, some 1⟩ rimParticle).y = rimParticle.y ∧
    ¬ ∃ x' y' : ℚ,
      (Particle.mouseParallax64 sqrt64 ⟨some 200, some 1⟩ rimParticle).x = JSNum.fin x' ∧
      (Particle.mouseParallax64 sqrt64 ⟨some 200, some 1⟩ rimParticle).y = JSNum.fin y' ∧
      (300 - 1 / 2 ^ 44 : ℚ) ^ 2 < (200 - x') ^ 2 + (1 - y') ^ 2 := by
  obtain ⟨hx, hy⟩ := rim_update
  refine ⟨rim_distance64, by norm_num, by norm_num, by norm_num [rimParticle], hx, hy, ?_⟩
  rintro ⟨x', y', hx', hy', hlt⟩
  rw [hx] at hx'
  rw [hy] at hy'
  injection hx' with hx'
  injection hy' with hy'
  subst hx' hy'
  norm_num at hlt

/-- The value of `distance` for `unitParticle` and the pointer at `(1, 2)`:
the binary64 square root of `2`. -/
theorem unit_distance64 :
    Particle.distance64 sqrt64 ⟨some 1, some 2⟩ unitParticle
      = JSNum.fin (6369051672525773 / 2 ^ 52) := by
  have v1 : round64 (1 - 0) = 1 := by
    have e : (1 - 0 : ℚ) = 1 := by norm_num
    rw [e]
    exact round64_fix _ 1 0 (by norm_num) (by norm_num) (by norm_num)
  have v2 : round64 (2 - 1) = 1 := by
    have e : (2 - 1 : ℚ) = 1 := by norm_num
    rw [e]
    exact round64_fix _ 1 0 (by norm_num) (by norm_num) (by norm_num)
  have v3 : round64 (1 * 1) = 1 := by
    have e : (1 * 1 : ℚ) = 1 := by norm_num
    rw [e]
    exact round64_fix _ 1 0 (by norm_num) (by norm_num) (by norm_num)
  have v4 : round64 (1 + 1) = 2 := by
    have e : (1 + 1 : ℚ) = 2 := by norm_num
    rw [e]
    exact round64_fix _ 2 0 (by norm_num) (by norm_num) (by norm_num)
  unfold Particle.distance64 unitParticle
  simp only [toNumber]
  rw [JSNum.sub64_fin _ _ (abs_le.mpr ⟨by norm_num, by norm_num⟩), v1,
    JSNum.sub64_fin _ _ (abs_le.mpr ⟨by norm_num, by norm_num⟩), v2,
    JSNum.mul64_fin _ _ (abs_le.mpr ⟨by norm_num, by norm_num⟩), v3,
    JSNum.add64_fin _ _ (abs_le.mpr ⟨by norm_num, by norm_num⟩), v4,
    JSNum.mathSqrt_fin _ _ (by norm_num), sqrt64_two]

/-- Witness of C6 (amended): `unitParticle` at `(0, 1)` and the pointer at `(1, 2)`,
at distance `sqrt 2` rounded; the particle moves away from the pointer on both
axes or stays. -/
theorem C6_repulsion_binary64_witness :
    Particle.distance64 sqrt64 ⟨some 1, some 2⟩ unitParticle
      = JSNum.fin (6369051672525773 / 2 ^ 52) ∧
    ∃ x' y' : ℚ,
      (Particle.mouseParallax64 sqrt64 ⟨some 1, some 2⟩ unitParticle).x = JSNum.fin x' ∧
      (Particle.mouseParallax64 sqrt64 ⟨some 1, some 2⟩ unitParticle).y = JSNum.fin y' ∧
      x' ≤ 0 ∧ y' ≤ 1 ∧ (1 - 0 : ℚ) ^ 2 + (2 - 1) ^ 2 ≤ (1 - x') ^ 2 + (2 - y') ^ 2 := by
  have r0 : round64 0 = 0 := round64_zero
  have r1 : round64 1 = 1 := round64_fix _ 1 0 (by norm_num) (by norm_num) (by norm_num)
  have e1 : round64 (1 - 0) = 1 := by
    have e : (1 - 0 : ℚ) = 1 := by norm_num
    rw [e, r1]
  have e2 : round64 (2 - 1) = 1 := by
    have e : (2 - 1 : ℚ) = 1 := by norm_num
    rw [e, r1]
  obtain ⟨force, cX, cY, dirX, dirY, x', y', -, -, -, -, -, -, -, hx', hy', -, -, ax, -, ay, -,
      hdist, -, -⟩ :=
    C6_repulsion_binary64 sqrt64 1 2 0 1 (6369051672525773 / 2 ^ 52) unitParticle rfl rfl r0 r1
      (abs_le.mpr ⟨by norm_num, by norm_num⟩) (abs_le.mpr ⟨by norm_num, by norm_num⟩)
      (abs_le.mpr ⟨by norm_num, by norm_num⟩) (abs_le.mpr ⟨by norm_num, by norm_num⟩)
      (by norm_num [unitParticle]) (by norm_num [unitParticle]) unit_distance64
      (by norm_num) (by norm_num)
      (by rw [e1]; norm_num) (by rw [e2]; norm_num)
  exact ⟨unit_distance64, x', y', hx', hy', (ax (by norm_num)).2, (ay (by norm_num)).2, hdist⟩

end Portfolio
